import Mathlib

/-!
# Shallow embedding of the CHIP-8 interpreter core (`src/chip8.rs`)

Machine integers are modelled as `Nat` with explicit `% 2^w` where the Rust
code performs wrapping arithmetic (`wrapping_add`, `wrapping_sub`, `<<=`),
and with explicit guards returning `none` where the Rust code can panic:
out-of-bounds array indexing, `ArrayVec::push` at capacity,
`Option::expect` on `pop`, and checked (debug-profile) integer overflow on
the plain `+` / `-` operators.  `none` therefore models a process abort
(panic), not an error value: the source has no error type at all.

Memory is a 4096-element list of bytes and the display a 32-row list of
64-column rows of booleans, mirroring the arrays of the source; reads use
`getD` behind the same bounds guards the source's panicking accesses
impose, so the defaults are never consulted by the semantics.  The
register file is a 16-element list,
the stack an explicit list whose head is the top (the source pushes and
pops at the end of its `ArrayVec`).  The random-byte source of `Cxkk`
(`rand::random::<u8>()`) is modelled by an oracle stream `rng : Nat → Nat`
together with a cursor `rngIdx`.

Field and function names follow `src/chip8.rs`.
-/

set_option maxRecDepth 100000

namespace Chip8Emu

def SCREEN_WIDTH : Nat := 64
def SCREEN_HEIGHT : Nat := 32
def MEM_COUNT : Nat := 4096
def REG_COUNT : Nat := 16
def STACK_COUNT : Nat := 16
def CARRY_REG : Nat := 0xF
def PROGRAM_OFFSET : Nat := 0x200
def FONT_OFFSET : Nat := 0x50

/-- The 80-byte `FONT_SET` table of `src/chip8.rs`. -/
def FONT_SET : List Nat := [
  0xF0, 0x90, 0x90, 0x90, 0xF0, -- 0
  0x20, 0x60, 0x20, 0x20, 0x70, -- 1
  0xF0, 0x10, 0xF0, 0x80, 0xF0, -- 2
  0xF0, 0x10, 0xF0, 0x10, 0xF0, -- 3
  0x90, 0x90, 0xF0, 0x10, 0x10, -- 4
  0xF0, 0x80, 0xF0, 0x10, 0xF0, -- 5
  0xF0, 0x80, 0xF0, 0x90, 0xF0, -- 6
  0xF0, 0x10, 0x20, 0x40, 0x40, -- 7
  0xF0, 0x90, 0xF0, 0x90, 0xF0, -- 8
  0xF0, 0x90, 0xF0, 0x10, 0xF0, -- 9
  0xF0, 0x90, 0xF0, 0x90, 0x90, -- A
  0xE0, 0x90, 0xE0, 0x90, 0xE0, -- B
  0xF0, 0x80, 0x80, 0x80, 0xF0, -- C
  0xE0, 0x90, 0x90, 0x90, 0xE0, -- D
  0xF0, 0x80, 0xF0, 0x80, 0xF0, -- E
  0xF0, 0x80, 0xF0, 0x80, 0x80] -- F

/-- Read of `display[r][c]` (row index first, as in the source). -/
def dispGet (d : List (List Bool)) (r c : Nat) : Bool :=
  (d.getD r []).getD c false

/-- Store into `display[r][c]`. -/
def dispSet (d : List (List Bool)) (r c : Nat) (b : Bool) : List (List Bool) :=
  d.set r ((d.getD r []).set c b)

/-- The `Chip8` struct of `src/chip8.rs`. -/
structure Chip8 where
  display : List (List Bool)
  memory : List Nat
  registers : List Nat
  index : Nat
  program_counter : Nat
  stack : List Nat
  delay_timer : Nat
  sound_timer : Nat
  op : Nat
  key : Nat
  rng : Nat → Nat
  rngIdx : Nat

namespace Chip8

/-- `Chip8::load_fonts`: the loop `memory[FONT_OFFSET + i] = FONT_SET[i]`. -/
def load_fonts (s : Chip8) : Chip8 :=
  { s with memory := ((List.range FONT_SET.length).foldl
      (fun m i => m.set (FONT_OFFSET + i) (FONT_SET.getD i 0)) s.memory) }

/-- `Chip8::new` (with the random-byte oracle made explicit). -/
def new (rng : Nat → Nat) : Chip8 :=
  load_fonts {
    display := List.replicate SCREEN_HEIGHT (List.replicate SCREEN_WIDTH false),
    memory := List.replicate MEM_COUNT 0,
    registers := List.replicate REG_COUNT 0,
    index := 0,
    program_counter := PROGRAM_OFFSET,
    stack := [],
    delay_timer := 0,
    sound_timer := 0,
    op := 0,
    key := 0,
    rng := rng,
    rngIdx := 0 }

/-- `Chip8::load_rom`, with the ROM file's byte contents passed as a list.
The single `Read::read` call into `&mut self.memory[PROGRAM_OFFSET..]`
copies at most `MEM_COUNT - PROGRAM_OFFSET = 3584` bytes: a longer file is
silently truncated, and the function always returns `Ok(())` for a
readable file (there is no size check and no `RomTooLarge` error). -/
def load_rom (s : Chip8) (rom : List Nat) : Chip8 :=
  let loaded := min rom.length (MEM_COUNT - PROGRAM_OFFSET)
  { s with memory := ((List.range loaded).foldl
      (fun m i => m.set (PROGRAM_OFFSET + i) (rom.getD i 0)) s.memory) }

/-- `Chip8::decrement_timers`. -/
def decrement_timers (s : Chip8) : Chip8 :=
  let s := if s.delay_timer > 0 then { s with delay_timer := s.delay_timer - 1 } else s
  if s.sound_timer > 0 then { s with sound_timer := s.sound_timer - 1 } else s

/-- `Chip8::clear_or_return` (opcodes 00E0 / 00EE; any other low byte just
logs a warning and leaves the state unchanged).  `stack.pop().expect(..)`
panics on an empty stack, modelled as `none`. -/
def clear_or_return (s : Chip8) : Option Chip8 :=
  if s.op % 256 = 0xE0 then
    some { s with display := List.replicate SCREEN_HEIGHT (List.replicate SCREEN_WIDTH false) }
  else if s.op % 256 = 0xEE then
    match s.stack with
    | [] => none
    | pc :: rest => some { s with program_counter := pc, stack := rest }
  else
    some s

/-- `Chip8::jump_addr` (1nnn). -/
def jump_addr (s : Chip8) : Chip8 :=
  { s with program_counter := s.op % 4096 }

/-- `Chip8::jump_addr_offset` (Bnnn).  The `u16` addition
`nnn + registers[0]` is at most `4095 + 255` and cannot overflow. -/
def jump_addr_offset (s : Chip8) : Chip8 :=
  { s with program_counter := s.op % 4096 + s.registers.getD 0 0 }

/-- `Chip8::call_addr` (2nnn).  `ArrayVec::push` panics when the stack is
already at capacity `STACK_COUNT = 16`, modelled as `none`. -/
def call_addr (s : Chip8) : Option Chip8 :=
  if s.stack.length < STACK_COUNT then
    some { s with stack := s.program_counter :: s.stack,
                  program_counter := s.op % 4096 }
  else
    none

/-- `Chip8::skip_eq_byte` (3xkk). -/
def skip_eq_byte (s : Chip8) : Chip8 :=
  let x := s.op / 256 % 16
  let byte := s.op % 256
  if s.registers.getD x 0 = byte then
    { s with program_counter := s.program_counter + 2 }
  else s

/-- `Chip8::skip_ne_byte` (4xkk). -/
def skip_ne_byte (s : Chip8) : Chip8 :=
  let x := s.op / 256 % 16
  let byte := s.op % 256
  if s.registers.getD x 0 ≠ byte then
    { s with program_counter := s.program_counter + 2 }
  else s

/-- `Chip8::skip_eq_reg` (5xy0). -/
def skip_eq_reg (s : Chip8) : Chip8 :=
  let x := s.op / 256 % 16
  let y := s.op / 16 % 16
  if s.registers.getD x 0 = s.registers.getD y 0 then
    { s with program_counter := s.program_counter + 2 }
  else s

/-- `Chip8::skip_ne_reg` (9xy0). -/
def skip_ne_reg (s : Chip8) : Chip8 :=
  let x := s.op / 256 % 16
  let y := s.op / 16 % 16
  if s.registers.getD x 0 ≠ s.registers.getD y 0 then
    { s with program_counter := s.program_counter + 2 }
  else s

/-- `Chip8::load_byte` (6xkk). -/
def load_byte (s : Chip8) : Chip8 :=
  let reg := s.op / 256 % 16
  let val := s.op % 256
  { s with registers := s.registers.set reg val }

/-- `Chip8::add_byte` (7xkk): `wrapping_add`, i.e. `% 256`. -/
def add_byte (s : Chip8) : Chip8 :=
  let reg := s.op / 256 % 16
  let val := s.op % 256
  { s with registers := s.registers.set reg ((s.registers.getD reg 0 + val) % 256) }

/-- `Chip8::logical_op` (8xyB).  The source re-reads `registers[x]` /
`registers[y]` after any earlier write in the same arm, which matters when
`x` or `y` is the carry register 15; the embedding performs the reads in
exactly the source's order.  The plain `-` in the 8xy7 arm is a checked
subtraction that panics on underflow in a debug build, modelled as `none`;
`wrapping_sub` is `(a + 256 - b) % 256` on byte values. -/
def logical_op (s : Chip8) : Option Chip8 :=
  let x := s.op / 256 % 16
  let y := s.op / 16 % 16
  if s.op % 16 = 0x0 then
    some { s with registers := s.registers.set x (s.registers.getD y 0) }
  else if s.op % 16 = 0x1 then
    some { s with registers := s.registers.set x (s.registers.getD x 0 ||| s.registers.getD y 0) }
  else if s.op % 16 = 0x2 then
    some { s with registers := s.registers.set x (s.registers.getD x 0 &&& s.registers.getD y 0) }
  else if s.op % 16 = 0x3 then
    some { s with registers := s.registers.set x (s.registers.getD x 0 ^^^ s.registers.getD y 0) }
  else if s.op % 16 = 0x4 then
    -- overflow and the wrapped sum are both computed from the pre-write
    -- register values; the carry register is written last.
    let overflow := if s.registers.getD x 0 + s.registers.getD y 0 > 255 then 1 else 0
    let r1 := s.registers.set x ((s.registers.getD x 0 + s.registers.getD y 0) % 256)
    some { s with registers := r1.set CARRY_REG overflow }
  else if s.op % 16 = 0x5 then
    -- the carry register is written first; `registers[x]`/`registers[y]`
    -- are re-read afterwards for the subtraction.
    let r1 := s.registers.set CARRY_REG (if s.registers.getD x 0 > s.registers.getD y 0 then 1 else 0)
    some { s with registers := r1.set x ((r1.getD x 0 + 256 - r1.getD y 0) % 256) }
  else if s.op % 16 = 0x6 then
    let r1 := s.registers.set CARRY_REG (s.registers.getD x 0 &&& 1)
    some { s with registers := r1.set x (r1.getD x 0 / 2) }
  else if s.op % 16 = 0x7 then
    let r1 := s.registers.set CARRY_REG (if s.registers.getD y 0 > s.registers.getD x 0 then 1 else 0)
    if r1.getD x 0 ≤ r1.getD y 0 then
      some { s with registers := r1.set x (r1.getD y 0 - r1.getD x 0) }
    else
      none
  else if s.op % 16 = 0xE then
    let r1 := s.registers.set CARRY_REG ((s.registers.getD x 0 &&& 0x80) / 128)
    some { s with registers := r1.set x (r1.getD x 0 * 2 % 256) }
  else
    some s

/-- `Chip8::set_index` (Annn). -/
def set_index (s : Chip8) : Chip8 :=
  { s with index := s.op % 4096 }

/-- `Chip8::rand` (Cxkk): `rand::random::<u8>() & kk`, with the random
byte drawn from the oracle stream. -/
def rand (s : Chip8) : Chip8 :=
  let reg := s.op / 256 % 16
  let val := s.op % 256
  { s with registers := s.registers.set reg (s.rng s.rngIdx % 256 &&& val),
           rngIdx := s.rngIdx + 1 }

/-- Whether bit `w` (most-significant first) of the sprite byte `line` is
set: `(line >> (7 - w)) & 0x1 == 1`. -/
def bitOn (line w : Nat) : Bool := (line >>> (7 - w)) &&& 1 = 1

/-- The inner `for w in 0..8` loop of `Chip8::draw`, over the list of
remaining bit offsets.  The `u8` additions `x + w` and `y + h` are checked
(debug profile) and panic above 255, modelled as `none`. -/
def drawBits (x0 y0 hrow line : Nat) : Chip8 → List Nat → Option Chip8
  | t, [] => some t
  | t, w :: ws =>
    if bitOn line w then
      if x0 + w ≤ 255 ∧ y0 + hrow ≤ 255 then
        let px := (x0 + w) % SCREEN_WIDTH
        let py := (y0 + hrow) % SCREEN_HEIGHT
        let t1 := if dispGet t.display py px then { t with registers := t.registers.set CARRY_REG 1 } else t
        drawBits x0 y0 hrow line
          { t1 with display := dispSet t1.display py px (!(dispGet t1.display py px)) }
          ws
      else none
    else drawBits x0 y0 hrow line t ws

/-- The outer `for h in 0..h` loop of `Chip8::draw`, over the list of
remaining row offsets.  `memory[(index + h) as usize]` panics when
`index + h ≥ 4096` (the checked `u16` addition panics only above 65535,
which the same guard already covers), modelled as `none`. -/
def drawRows (x0 y0 : Nat) : Chip8 → List Nat → Option Chip8
  | t, [] => some t
  | t, hrow :: hs =>
    if t.index + hrow < MEM_COUNT then
      match drawBits x0 y0 hrow (t.memory.getD (t.index + hrow) 0) t (List.range 8) with
      | none => none
      | some t1 => drawRows x0 y0 t1 hs
    else none

/-- `Chip8::draw` (Dxyn): the origin registers are read first, then the
carry register is reset to 0, then the rows are blitted. -/
def draw (s : Chip8) : Option Chip8 :=
  let x0 := s.registers.getD (s.op / 256 % 16) 0
  let y0 := s.registers.getD (s.op / 16 % 16) 0
  let h := s.op % 16
  drawRows x0 y0 { s with registers := s.registers.set CARRY_REG 0 } (List.range h)

/-- `Chip8::keyboard_op` (Ex9E / ExA1; any other low byte logs a warning
and leaves the state unchanged). -/
def keyboard_op (s : Chip8) : Chip8 :=
  let reg := s.op / 256 % 16
  if s.op % 256 = 0x9E then
    if s.key = s.registers.getD reg 0 then
      { s with program_counter := s.program_counter + 2 }
    else s
  else if s.op % 256 = 0xA1 then
    if s.key ≠ s.registers.getD reg 0 then
      { s with program_counter := s.program_counter + 2 }
    else s
  else s

/-- `Chip8::misc_op` (Fxkk; an unmapped low byte logs a warning and leaves
the state unchanged).  Array stores/loads `memory[index + i]` panic when
the address reaches 4096, and the `u16` addition `index + registers[reg]`
of Fx1E is checked, both modelled as `none`. -/
def misc_op (s : Chip8) : Option Chip8 :=
  let reg := s.op / 256 % 16
  if s.op % 256 = 0x07 then
    some { s with registers := s.registers.set reg s.delay_timer }
  else if s.op % 256 = 0x0A then
    some { s with registers := s.registers.set reg s.key }
  else if s.op % 256 = 0x15 then
    some { s with delay_timer := s.registers.getD reg 0 }
  else if s.op % 256 = 0x18 then
    some { s with sound_timer := s.registers.getD reg 0 }
  else if s.op % 256 = 0x1E then
    if s.index + s.registers.getD reg 0 < 65536 then
      some { s with index := s.index + s.registers.getD reg 0 }
    else none
  else if s.op % 256 = 0x29 then
    some { s with index := s.registers.getD reg 0 * 5 }
  else if s.op % 256 = 0x33 then
    if s.index + 2 < MEM_COUNT then
      some { s with memory :=
        ((((s.memory.set
          s.index (s.registers.getD reg 0 / 100)).set
          (s.index + 1) (s.registers.getD reg 0 / 10 % 10)).set
          (s.index + 2) (s.registers.getD reg 0 % 10))) }
    else none
  else if s.op % 256 = 0x55 then
    if s.index + reg < MEM_COUNT then
      let m1 := (List.range (reg + 1)).foldl
        (fun m i => m.set (s.index + i) (s.registers.getD i 0)) s.memory
      some { s with memory := m1, index := s.index + reg + 1 }
    else none
  else if s.op % 256 = 0x65 then
    if s.index + reg < MEM_COUNT then
      let r1 := (List.range (reg + 1)).foldl
        (fun r i => r.set i (s.memory.getD (s.index + i) 0)) s.registers
      some { s with registers := r1, index := s.index + reg + 1 }
    else none
  else
    some s

/-- The tail of `Chip8::handle_op`: `if !jump { self.program_counter += 2 }`
applied to the dispatch result, with the checked `u16` addition
`program_counter += 2` guarded at 65536. -/
def finish : Option Chip8 × Bool → Option Chip8
  | (none, _) => none
  | (some t, jump) =>
    if jump then some t
    else if t.program_counter + 2 < 65536 then
      some { t with program_counter := t.program_counter + 2 }
    else none

/-- `Chip8::handle_op`: one `step()`.  Decrement the timers, fetch the
big-endian two-byte word at the program counter (the array reads panic
when `program_counter + 1 ≥ 4096`, which also covers the checked `u16`
increment), dispatch on the top nibble, and advance the program counter by
2 unless the handler was a jump/call. -/
def handle_op (s : Chip8) : Option Chip8 :=
  let s := s.decrement_timers
  if s.program_counter + 1 < MEM_COUNT then
    -- big-endian compose `memory[pc] << 8 | memory[pc+1]`; the cells are
    -- bytes, so shift-or coincides with `* 256 +`.
    let op := s.memory.getD s.program_counter 0 * 256 + s.memory.getD (s.program_counter + 1) 0
    let s := { s with op := op }
    let res : Option Chip8 × Bool :=
      if op / 4096 = 0x0 then (s.clear_or_return, false)
      else if op / 4096 = 0x1 then (some s.jump_addr, true)
      else if op / 4096 = 0xB then (some s.jump_addr_offset, true)
      else if op / 4096 = 0x2 then (s.call_addr, true)
      else if op / 4096 = 0x3 then (some s.skip_eq_byte, false)
      else if op / 4096 = 0x4 then (some s.skip_ne_byte, false)
      else if op / 4096 = 0x5 then (some s.skip_eq_reg, false)
      else if op / 4096 = 0x9 then (some s.skip_ne_reg, false)
      else if op / 4096 = 0x6 then (some s.load_byte, false)
      else if op / 4096 = 0x7 then (some s.add_byte, false)
      else if op / 4096 = 0x8 then (s.logical_op, false)
      else if op / 4096 = 0xA then (some s.set_index, false)
      else if op / 4096 = 0xC then (some s.rand, false)
      else if op / 4096 = 0xD then (s.draw, false)
      else if op / 4096 = 0xE then (some s.keyboard_op, false)
      else if op / 4096 = 0xF then (s.misc_op, false)
      else (some s, false)
    finish res
  else none

end Chip8

/-! ## Basic list lemmas -/

theorem getD_set {α : Type _} (l : List α) (i j : Nat) (a d : α) :
    (l.set i a).getD j d = if i = j ∧ i < l.length then a else l.getD j d := by
  simp only [List.getD_eq_getElem?_getD, List.getElem?_set]
  by_cases h1 : i = j
  · subst h1
    by_cases h2 : i < l.length
    · simp [h2]
    · rw [List.getElem?_eq_none (by omega)]
      simp [h2]
  · simp [h1]

theorem getD_set_eq {α : Type _} (l : List α) (i : Nat) (a d : α) (h : i < l.length) :
    (l.set i a).getD i d = a := by
  simp [getD_set, h]

theorem getD_set_ne {α : Type _} (l : List α) (i j : Nat) (a d : α) (h : i ≠ j) :
    (l.set i a).getD j d = l.getD j d := by
  simp [getD_set, h]

theorem foldl_set_length (f : Nat → Nat) (m : List Nat) (base k : Nat) :
    ((List.range k).foldl (fun m i => m.set (base + i) (f i)) m).length = m.length := by
  induction k with
  | zero => rfl
  | succ n ih => rw [List.range_succ, List.foldl_append]; simpa using ih

/-- Reading back from a block of consecutive stores
`memory[base + i] = f i`, `i < k`. -/
theorem foldl_set_getD (f : Nat → Nat) (m : List Nat) (base k a : Nat) :
    ((List.range k).foldl (fun m i => m.set (base + i) (f i)) m).getD a 0 =
      if base ≤ a ∧ a < base + k ∧ a < m.length then f (a - base)
      else m.getD a 0 := by
  induction k with
  | zero =>
    simp only [List.range_zero, List.foldl_nil]
    rw [if_neg (by omega)]
  | succ n ih =>
    rw [List.range_succ, List.foldl_append]
    simp only [List.foldl_cons, List.foldl_nil]
    rw [getD_set, foldl_set_length, ih]
    by_cases h1 : base + n = a
    · subst h1
      by_cases h3 : base + n < m.length
      · rw [if_pos ⟨rfl, h3⟩, if_pos (by omega)]
        congr 1
        omega
      · iterate 3 rw [if_neg (by omega)]
    · by_cases h2 : base ≤ a ∧ a < base + n ∧ a < m.length
      · rw [if_neg (by omega), if_pos h2, if_pos (by omega)]
      · rw [if_neg (by omega), if_neg h2, if_neg (by omega)]

namespace Chip8

/-! ## Small unfolding lemmas -/

/-- `decrement_timers` is exactly a floor-at-zero decrement of both
timers (`Nat` subtraction already floors at zero). -/
theorem decrement_timers_eq (s : Chip8) :
    s.decrement_timers = { s with delay_timer := s.delay_timer - 1,
                                  sound_timer := s.sound_timer - 1 } := by
  unfold decrement_timers
  rcases s with ⟨d, m, r, i, pc, st, dt, sot, op, k, rg, ri⟩
  by_cases h1 : dt > 0 <;> by_cases h2 : sot > 0 <;> simp [h1, h2] <;> omega

end Chip8

/-- A fixed random-byte oracle, used for the concrete states below. -/
def rng0 : Nat → Nat := fun _ => 0

/-! ## C3 — 8xy7 must not panic on underflow -/

/-- Concrete state exercising 8xy7 with `registers[x] > registers[y]`:
`V0 = 5`, `V1 = 3`, op `8017`. -/
def c3state : Chip8 :=
  { Chip8.new rng0 with registers := ((List.replicate 16 0).set 0 5).set 1 3,
                        op := 0x8017 }

/-- C3: the claim says 8xy7 computes `(registers[y] - registers[x]) mod 256`
without panicking even when `registers[x] > registers[y]`.  The code uses
the plain (checked) `-` operator, which panics on underflow in a debug
build (`none` in the embedding), unlike the `wrapping_sub` used by 8xy5:
at `V0 = 5 > V1 = 3`, executing op `8017` aborts instead of storing
`(3 - 5) mod 256 = 254`.  The flag register is still written (to 0) before
the panic. -/
theorem C3_8xy7_underflow_panics :
    c3state.registers.getD 0 0 > c3state.registers.getD 1 0 ∧
    c3state.logical_op.isSome = false := by decide

/-! ## C4 — call/return stack behaviour -/

/-- Concrete state with a full (16-deep) stack about to execute `2300`. -/
def c4full : Chip8 :=
  { Chip8.new rng0 with stack := List.replicate 16 0x200, op := 0x2300 }

/-- Concrete state with an empty stack about to execute `00EE`. -/
def c4empty : Chip8 := { Chip8.new rng0 with op := 0x00EE }

/-- C4 counterexample: the claim says a call with 16 saved return
addresses fails with a `StackOverflow` *error* (not a process abort), and
a return on an empty stack fails with a `StackUnderflow` error.  The code
has no error type: `ArrayVec::push` at capacity and
`stack.pop().expect(..)` on an empty stack both panic, aborting the
process (`none` in the embedding, which models a panic, not a returned
error value). -/
theorem C4_counterexample :
    c4full.stack.length = 16 ∧ c4full.call_addr.isSome = false ∧
    c4empty.stack = [] ∧ c4empty.clear_or_return.isSome = false := by decide

/-- C4 (amended): `2nnn` pushes the current program counter and jumps to
`nnn` while the stack holds fewer than 16 return addresses, and *panics*
(process abort, modelled as `none`) on the 17th; `00EE` pops the most
recently pushed address into the program counter and panics on an empty
stack; a call followed by a return restores the program counter and the
stack (LIFO order). -/
theorem C4_amended_call_return (s : Chip8) :
    (s.stack.length < 16 →
      s.call_addr = some { s with stack := s.program_counter :: s.stack,
                                  program_counter := s.op % 4096 }) ∧
    (s.stack.length = 16 → s.call_addr = none) ∧
    (s.op % 256 = 0xEE → s.stack = [] → s.clear_or_return = none) ∧
    (∀ p rest, s.op % 256 = 0xEE → s.stack = p :: rest →
      s.clear_or_return = some { s with program_counter := p, stack := rest }) ∧
    (∀ t u, s.call_addr = some t →
      Chip8.clear_or_return { t with op := 0x00EE } = some u →
      u.program_counter = s.program_counter ∧ u.stack = s.stack) := by
  refine ⟨?_, ?_, ?_, ?_, ?_⟩
  · intro h
    simp [Chip8.call_addr, STACK_COUNT, h]
  · intro h
    simp [Chip8.call_addr, STACK_COUNT, h]
  · intro hop hst
    simp [Chip8.clear_or_return, hop, hst]
  · intro p rest hop hst
    simp [Chip8.clear_or_return, hop, hst]
  · intro t u hc hr
    unfold Chip8.call_addr at hc
    by_cases h : s.stack.length < STACK_COUNT
    · rw [if_pos h] at hc
      cases hc
      simp [Chip8.clear_or_return] at hr
      cases hr
      exact ⟨rfl, rfl⟩
    · rw [if_neg h] at hc; cases hc

/-- Witness for `C4_amended_call_return` at a concrete state: a call from
the fresh VM (empty stack, `program_counter = 0x200`) with op `2300`
pushes `0x200` and jumps to `0x300`. -/
theorem C4_witness :
    (Chip8.new rng0).stack.length < 16 ∧
    Chip8.call_addr { Chip8.new rng0 with op := 0x2300 } =
      some { { Chip8.new rng0 with op := 0x2300 } with
             stack := [0x200], program_counter := 0x300 } := by
  constructor
  · decide
  · have h := (C4_amended_call_return { Chip8.new rng0 with op := 0x2300 }).1 (by decide)
    simpa using h

/-! ## C8 — timer decrement -/

/-- Fresh VM with the delay timer set to 1 (memory at `0x200` is zero, so
the fetched op `0000` is an unmapped 0-family opcode: a no-op step). -/
def c8state : Chip8 := { Chip8.new rng0 with delay_timer := 1 }

/-- C8: on every `step()` (`handle_op`) the two timers are decremented
first, by exactly 1 when nonzero and left at 0 otherwise (`Nat`
subtraction floors at zero, matching the source's `if t > 0 { t -= 1 }`);
concretely, starting from delay timer = 1, the timer is 0 after the first
step and still 0 after the second. -/
theorem C8_timers :
    (∀ s : Chip8, (s.decrement_timers).delay_timer = s.delay_timer - 1 ∧
                  (s.decrement_timers).sound_timer = s.sound_timer - 1) ∧
    (c8state.handle_op).map (fun t => t.delay_timer) = some 0 ∧
    (c8state.handle_op.bind Chip8.handle_op).map (fun t => t.delay_timer) = some 0 := by
  refine ⟨fun s => ?_, by decide, by decide⟩
  rw [Chip8.decrement_timers_eq]
  exact ⟨rfl, rfl⟩

/-! ## C5 — ROM loading -/

/-- Memory of a freshly constructed VM: the font table at
`0x50..0xA0`, zero elsewhere. -/
theorem new_memory_getD (rng : Nat → Nat) (a : Nat) :
    (Chip8.new rng).memory.getD a 0 =
      if FONT_OFFSET ≤ a ∧ a < FONT_OFFSET + 80 then FONT_SET.getD (a - FONT_OFFSET) 0
      else 0 := by
  unfold Chip8.new Chip8.load_fonts
  dsimp only
  rw [foldl_set_getD]
  have hf : FONT_SET.length = 80 := by decide
  rw [hf, List.length_replicate]
  by_cases h : FONT_OFFSET ≤ a ∧ a < FONT_OFFSET + 80
  · rw [if_pos ⟨h.1, h.2, by unfold FONT_OFFSET MEM_COUNT at *; omega⟩, if_pos h]
  · rw [if_neg (by tauto), if_neg h]
    simp only [List.getD_eq_getElem?_getD, List.getElem?_replicate]
    by_cases ha : a < MEM_COUNT <;> simp [ha]

theorem new_memory_length (rng : Nat → Nat) :
    (Chip8.new rng).memory.length = 4096 := by
  unfold Chip8.new Chip8.load_fonts
  dsimp only
  rw [foldl_set_length, List.length_replicate]
  rfl

/-- Memory after `load_rom`: the first `min (rom.length) 3584` ROM bytes
at `0x200..`, the rest unchanged. -/
theorem load_rom_memory_getD (s : Chip8) (rom : List Nat) (a : Nat) :
    (s.load_rom rom).memory.getD a 0 =
      if PROGRAM_OFFSET ≤ a ∧ a < PROGRAM_OFFSET + min rom.length 3584 ∧ a < s.memory.length
      then rom.getD (a - PROGRAM_OFFSET) 0
      else s.memory.getD a 0 := by
  unfold Chip8.load_rom
  dsimp only
  rw [foldl_set_getD]
  norm_num [MEM_COUNT, PROGRAM_OFFSET]

/-- A 3585-byte ROM: one byte too many according to the claim. -/
def bigrom : List Nat := List.replicate 3585 7

/-- C5 counterexample: the claim says a ROM longer than 3584 bytes makes
the load fail with `RomTooLarge`, without silent truncation and leaving
memory unchanged.  The code's `load_rom` has no size check at all: a
single `Read::read` into `memory[0x200..]` copies the first 3584 bytes
(silent truncation), always succeeds, and memory *is* changed — byte
`0x200` becomes the first ROM byte. -/
theorem C5_counterexample :
    bigrom.length = 3585 ∧
    ((Chip8.new rng0).load_rom bigrom).memory.getD 0x200 0 = 7 ∧
    (Chip8.new rng0).memory.getD 0x200 0 = 0 := by
  have hlen : bigrom.length = 3585 := by
    unfold bigrom
    exact List.length_replicate ..
  refine ⟨hlen, ?_, ?_⟩
  · have hc : PROGRAM_OFFSET ≤ 0x200 ∧
        0x200 < PROGRAM_OFFSET + min bigrom.length 3584 ∧
        0x200 < (Chip8.new rng0).memory.length := by
      rw [hlen, new_memory_length]
      refine ⟨by decide, by decide, by decide⟩
    rw [load_rom_memory_getD, if_pos hc]
    show bigrom.getD 0 0 = 7
    unfold bigrom
    rw [List.getD_eq_getElem?_getD, List.getElem?_replicate, if_pos (by omega)]
    rfl
  · rw [new_memory_getD, if_neg (by decide)]

/-- C5 (amended): `load_rom` never fails and never leaves memory
unchanged for a nonempty ROM; it copies the first
`min (len rom) 3584` bytes of the ROM to `0x200..` and leaves every other
byte unchanged.  For `len ≤ 3584` this matches the claim's success case;
for `len > 3584` the load silently truncates to 3584 bytes instead of
failing with `RomTooLarge`.  Registers, program counter, display, stack
and index register are untouched. -/
theorem C5_amended_load (s : Chip8) (rom : List Nat) (hmem : s.memory.length = 4096) :
    (rom.length ≤ 3584 →
      (∀ i, i < rom.length → (s.load_rom rom).memory.getD (0x200 + i) 0 = rom.getD i 0) ∧
      (∀ a, a < 0x200 ∨ 0x200 + rom.length ≤ a →
        (s.load_rom rom).memory.getD a 0 = s.memory.getD a 0)) ∧
    (rom.length > 3584 →
      (∀ i, i < 3584 → (s.load_rom rom).memory.getD (0x200 + i) 0 = rom.getD i 0) ∧
      (∀ a, a < 0x200 ∨ 0x1000 ≤ a →
        (s.load_rom rom).memory.getD a 0 = s.memory.getD a 0)) ∧
    (s.load_rom rom).registers = s.registers ∧
    (s.load_rom rom).program_counter = s.program_counter ∧
    (s.load_rom rom).display = s.display ∧
    (s.load_rom rom).stack = s.stack ∧
    (s.load_rom rom).index = s.index := by
  have hp : PROGRAM_OFFSET = 0x200 := rfl
  refine ⟨fun hle => ⟨fun i hi => ?_, fun a ha => ?_⟩,
          fun hgt => ⟨fun i hi => ?_, fun a ha => ?_⟩, rfl, rfl, rfl, rfl, rfl⟩
  · rw [load_rom_memory_getD, if_pos ⟨by omega, by omega, by omega⟩]
    congr 1
    omega
  · rw [load_rom_memory_getD, if_neg (by omega)]
  · rw [load_rom_memory_getD, if_pos ⟨by omega, by omega, by omega⟩]
    congr 1
    omega
  · rw [load_rom_memory_getD, if_neg (by omega)]

/-- Witness for `C5_amended_load`: loading the 3-byte ROM `[1, 2, 3]`
into a fresh VM puts byte 1 at `0x200` and leaves byte `0x1FF` at 0. -/
theorem C5_witness :
    (Chip8.new rng0).memory.length = 4096 ∧
    ((Chip8.new rng0).load_rom [1, 2, 3]).memory.getD (0x200 + 0) 0 = [1, 2, 3].getD 0 0 ∧
    ((Chip8.new rng0).load_rom [1, 2, 3]).memory.getD 0x1FF 0 = (Chip8.new rng0).memory.getD 0x1FF 0 := by
  have hm : (Chip8.new rng0).memory.length = 4096 := new_memory_length rng0
  have h := C5_amended_load (Chip8.new rng0) [1, 2, 3] hm
  exact ⟨hm, (h.1 (by decide)).1 0 (by decide), (h.1 (by decide)).2 0x1FF (by omega)⟩

/-! ## C2 — flag-write ordering for 8xy4/8xy5/8xy6/8xy7/8xyE -/

/-- Concrete state executing 8xy6 with destination `x = 15`:
`V15 = 3`, op `8F06`. -/
def c2state : Chip8 :=
  { Chip8.new rng0 with registers := (List.replicate 16 0).set 15 3, op := 0x8F06 }

/-- C2 counterexample: the claim says the flag register is always written
*after* the destination, so that with `x = 15` the value remaining in
register 15 is the flag value.  For 8xy6 the code writes the flag first
(`registers[0xF] = registers[x] & 1`) and then shifts
(`registers[x] >>= 1`), re-reading the just-written flag when `x = 15`:
from `V15 = 3` the flag value is `3 & 1 = 1`, but the value remaining in
register 15 after op `8F06` is `1 >> 1 = 0`, not the flag value `1`. -/
theorem C2_counterexample :
    c2state.registers.getD 15 0 &&& 1 = 1 ∧
    (c2state.logical_op).map (fun t => t.registers.getD 15 0) = some 0 := by decide

/-- C2 (amended): only 8xy4 writes the flag last — with `x = 15` the
value remaining in register 15 is the carry flag.  8xy5, 8xy6, 8xy7 and
8xyE write the flag *first* and then write the destination, so with
`x = 15` the value remaining in register 15 is the arithmetic result
recomputed from the just-written flag value: `(flag + 256 - Vy) % 256`
for 8xy5, `flag >> 1` for 8xy6, `Vy - flag` for 8xy7 (never an underflow,
since `flag = 1` forces `Vy ≥ 1`), and `flag * 2 % 256` for 8xyE
(`y ≠ 15` throughout; `Vy` and the flag are read before any write). -/
theorem C2_amended_flag_order (s : Chip8)
    (hreg : s.registers.length = 16)
    (hx : s.op / 256 % 16 = 15) (hy : s.op / 16 % 16 ≠ 15) :
    (s.op % 16 = 0x4 → (s.logical_op).map (fun t => t.registers.getD 15 0) =
      some (if s.registers.getD 15 0 + s.registers.getD (s.op / 16 % 16) 0 > 255
            then 1 else 0)) ∧
    (s.op % 16 = 0x5 → (s.logical_op).map (fun t => t.registers.getD 15 0) =
      some (((if s.registers.getD 15 0 > s.registers.getD (s.op / 16 % 16) 0 then 1 else 0)
              + 256 - s.registers.getD (s.op / 16 % 16) 0) % 256)) ∧
    (s.op % 16 = 0x6 → (s.logical_op).map (fun t => t.registers.getD 15 0) =
      some ((s.registers.getD 15 0 &&& 1) / 2)) ∧
    (s.op % 16 = 0x7 → (s.logical_op).map (fun t => t.registers.getD 15 0) =
      some (s.registers.getD (s.op / 16 % 16) 0 -
        (if s.registers.getD (s.op / 16 % 16) 0 > s.registers.getD 15 0 then 1 else 0))) ∧
    (s.op % 16 = 0xE → (s.logical_op).map (fun t => t.registers.getD 15 0) =
      some ((s.registers.getD 15 0 &&& 0x80) / 128 * 2 % 256)) := by
  have h15 : (15 : Nat) < s.registers.length := by omega
  have hne : (15 : Nat) ≠ s.op / 16 % 16 := fun h => hy h.symm
  refine ⟨fun hk => ?_, fun hk => ?_, fun hk => ?_, fun hk => ?_, fun hk => ?_⟩
  · -- 8xy4: flag written last
    unfold Chip8.logical_op
    rw [hx, hk]
    norm_num [CARRY_REG]
    simp only [List.getElem?_set_self h15, List.getElem?_set_ne hne, Option.getD_some]
  · -- 8xy5: flag written first, then re-read for the subtraction
    unfold Chip8.logical_op
    rw [hx, hk]
    norm_num [CARRY_REG]
    simp only [List.getElem?_set_self h15, List.getElem?_set_ne hne, Option.getD_some]
  · -- 8xy6: flag written first, then shifted into the destination
    unfold Chip8.logical_op
    rw [hx, hk]
    norm_num [CARRY_REG]
    simp only [List.getElem?_set_self h15, List.getElem?_set_ne hne, Option.getD_some]
    omega
  · -- 8xy7: flag written first; the subtraction guard never fails here
    unfold Chip8.logical_op
    rw [hx, hk]
    norm_num [CARRY_REG]
    simp only [List.getElem?_set_self h15, List.getElem?_set_ne hne, Option.getD_some]
    refine ⟨by split <;> omega, trivial⟩
  · -- 8xyE: flag written first, then doubled into the destination
    unfold Chip8.logical_op
    rw [hx, hk]
    norm_num [CARRY_REG]
    simp only [List.getElem?_set_self h15, List.getElem?_set_ne hne, Option.getD_some]

/-- Witness for `C2_amended_flag_order` at `c2state` (8xy6, `x = 15`,
`V15 = 3`): register 15 ends as `(3 & 1) >> 1 = 0`. -/
theorem C2_witness :
    (c2state.logical_op).map (fun t => t.registers.getD 15 0) =
      some ((c2state.registers.getD 15 0 &&& 1) / 2) :=
  (C2_amended_flag_order c2state (by decide) (by decide) (by decide)).2.2.1 (by decide)

/-! ## C10 — key release is represented as key value 0 -/

/-- C10: the host writes `key = 0` on key release (`src/main.rs`), so "no
key pressed" is the same state as "key 0 pressed".  For every state with
`key = 0` and `registers[x] = 0`: an `Ex9E` step (skip if key == Vx)
skips the next instruction (the program counter advances by 4), an `ExA1`
step (skip if key != Vx) does not skip (advances by 2), and an `Fx0A`
step stores the key value 0 into `registers[x]` (and advances by 2). -/
theorem C10_key_zero (s : Chip8) (x : Nat)
    (hx : x < 16) (hkey : s.key = 0) (hreg : s.registers.getD x 0 = 0)
    (hpc : s.program_counter + 1 < 4096) :
    (s.memory.getD s.program_counter 0 = 0xE0 + x →
     s.memory.getD (s.program_counter + 1) 0 = 0x9E →
     (s.handle_op).map (fun t => t.program_counter) = some (s.program_counter + 4)) ∧
    (s.memory.getD s.program_counter 0 = 0xE0 + x →
     s.memory.getD (s.program_counter + 1) 0 = 0xA1 →
     (s.handle_op).map (fun t => t.program_counter) = some (s.program_counter + 2)) ∧
    (s.memory.getD s.program_counter 0 = 0xF0 + x →
     s.memory.getD (s.program_counter + 1) 0 = 0x0A →
     (s.handle_op).map (fun t => (t.registers.getD x 0, t.program_counter)) =
       some (0, s.program_counter + 2)) := by
  have hreg2 : s.registers[x]?.getD 0 = 0 := by
    rw [← List.getD_eq_getElem?_getD]
    exact hreg
  refine ⟨fun h1 h2 => ?_, fun h1 h2 => ?_, fun h1 h2 => ?_⟩
  · -- Ex9E with Vx = key = 0: skip
    unfold Chip8.handle_op
    rw [Chip8.decrement_timers_eq]
    dsimp only
    rw [if_pos (show s.program_counter + 1 < MEM_COUNT from hpc), h1, h2]
    have hfam : ((0xE0 + x) * 256 + 0x9E) / 4096 = 0xE := by omega
    have hkk : ((0xE0 + x) * 256 + 0x9E) % 256 = 0x9E := by omega
    have hreg' : ((0xE0 + x) * 256 + 0x9E) / 256 % 16 = x := by omega
    rw [hfam]
    norm_num
    unfold Chip8.keyboard_op
    dsimp only
    rw [hkk]
    norm_num [hreg', hkey]
    rw [hreg2]
    simp [Chip8.finish]
    exact ⟨_, ⟨by omega, rfl⟩,
      by show s.program_counter + 2 + 2 = s.program_counter + 4; omega⟩
  · -- ExA1 with Vx = key = 0: no skip
    unfold Chip8.handle_op
    rw [Chip8.decrement_timers_eq]
    dsimp only
    rw [if_pos (show s.program_counter + 1 < MEM_COUNT from hpc), h1, h2]
    have hfam : ((0xE0 + x) * 256 + 0xA1) / 4096 = 0xE := by omega
    have hkk : ((0xE0 + x) * 256 + 0xA1) % 256 = 0xA1 := by omega
    have hreg' : ((0xE0 + x) * 256 + 0xA1) / 256 % 16 = x := by omega
    rw [hfam]
    norm_num
    unfold Chip8.keyboard_op
    dsimp only
    rw [hkk]
    norm_num [hreg', hkey]
    rw [hreg2]
    simp [Chip8.finish]
    exact ⟨_, ⟨by omega, rfl⟩,
      by show s.program_counter + 2 = s.program_counter + 2; rfl⟩
  · -- Fx0A stores key = 0 into Vx
    unfold Chip8.handle_op
    rw [Chip8.decrement_timers_eq]
    dsimp only
    rw [if_pos (show s.program_counter + 1 < MEM_COUNT from hpc), h1, h2]
    have hfam : ((0xF0 + x) * 256 + 0x0A) / 4096 = 0xF := by omega
    have hkk : ((0xF0 + x) * 256 + 0x0A) % 256 = 0x0A := by omega
    have hreg' : ((0xF0 + x) * 256 + 0x0A) / 256 % 16 = x := by omega
    rw [hfam]
    norm_num
    unfold Chip8.misc_op
    dsimp only
    rw [hkk]
    norm_num [hreg', hkey, Chip8.finish]
    have hset : (s.registers.set x 0)[x]?.getD 0 = 0 := by
      rw [List.getElem?_set]
      by_cases h : x < s.registers.length <;> simp [h]
    exact ⟨_, ⟨by omega, rfl⟩, hset, by dsimp only⟩

/-- Concrete state for the `C10_key_zero` witness: fresh VM (all
registers 0, `key = 0`) with instruction `E09E` at `0x200`. -/
def c10state : Chip8 :=
  { Chip8.new rng0 with
    memory := ((Chip8.new rng0).memory.set 0x200 0xE0).set 0x201 0x9E }

/-- Witness for `C10_key_zero`: from `c10state` (key 0, `V0 = 0`, op
`E09E`) the step skips, leaving the program counter at `0x204`. -/
theorem C10_witness :
    (c10state.handle_op).map (fun t => t.program_counter) =
      some (c10state.program_counter + 4) :=
  (C10_key_zero c10state 0 (by decide) (by decide) (by decide) (by decide)).1
    (by decide) (by decide)

/-! ## C6 — out-of-bounds memory accesses -/

/-- Fresh VM with the program counter at 4095: the two-byte fetch needs
address 4096. -/
def c6state : Chip8 := { Chip8.new rng0 with program_counter := 0xFFF }

/-- C6 counterexample: the claim says any access at an address ≥ 4096
fails with a `MemoryFault` *error surfaced to the host*.  The code has no
`MemoryFault` (or any other) error type: `handle_op` returns nothing, and
an out-of-bounds index panics, aborting the process (modelled as `none`).
At `program_counter = 4095` the instruction fetch reads index 4096 and
aborts. -/
theorem C6_counterexample :
    c6state.program_counter + 1 = 4096 ∧ c6state.handle_op.isSome = false := by decide

/-- C6 (amended): every memory access with an effective address ≥ 4096
panics — a process abort (modelled as `none`), not a `MemoryFault` error
value surfaced to the host; no out-of-bounds read or write happens.  This
covers the two-byte instruction fetch when `program_counter + 1 ≥ 4096`,
the BCD store `Fx33` when `index + 2 ≥ 4096`, the register-block
store/load `Fx55`/`Fx65` when `index + x ≥ 4096`, and a sprite row read
`Dxyn` (n ≥ 1) when `index ≥ 4096`. -/
theorem C6_amended_memory_fault (s : Chip8) :
    (s.program_counter + 1 ≥ 4096 → s.handle_op = none) ∧
    (s.op % 256 = 0x33 → s.index + 2 ≥ 4096 → s.misc_op = none) ∧
    (s.op % 256 = 0x55 → s.index + s.op / 256 % 16 ≥ 4096 → s.misc_op = none) ∧
    (s.op % 256 = 0x65 → s.index + s.op / 256 % 16 ≥ 4096 → s.misc_op = none) ∧
    (s.op % 16 ≥ 1 → s.index ≥ 4096 → s.draw = none) := by
  refine ⟨fun h => ?_, fun hk h => ?_, fun hk h => ?_, fun hk h => ?_, fun hn h => ?_⟩
  · unfold Chip8.handle_op
    rw [Chip8.decrement_timers_eq]
    dsimp only
    unfold MEM_COUNT
    rw [if_neg (by omega)]
  · unfold Chip8.misc_op
    dsimp only
    unfold MEM_COUNT
    iterate 6 rw [if_neg (by omega)]
    rw [if_pos hk, if_neg (by omega)]
  · unfold Chip8.misc_op
    dsimp only
    unfold MEM_COUNT
    iterate 7 rw [if_neg (by omega)]
    rw [if_pos hk, if_neg (by omega)]
  · unfold Chip8.misc_op
    dsimp only
    unfold MEM_COUNT
    iterate 8 rw [if_neg (by omega)]
    rw [if_pos hk, if_neg (by omega)]
  · unfold Chip8.draw
    dsimp only
    obtain ⟨n, hn'⟩ : ∃ n, s.op % 16 = n + 1 := ⟨s.op % 16 - 1, by omega⟩
    rw [hn', List.range_succ_eq_map]
    unfold Chip8.drawRows
    dsimp only
    unfold MEM_COUNT
    rw [if_neg (by omega)]

/-- Witness for `C6_amended_memory_fault`: the fetch at
`program_counter = 4095` aborts on the fresh VM. -/
theorem C6_witness :
    Chip8.handle_op { Chip8.new rng0 with program_counter := 0xFFF } = none :=
  (C6_amended_memory_fault { Chip8.new rng0 with program_counter := 0xFFF }).1
    (by decide)

/-! ## C7 — unmapped sub-opcodes are non-fatal no-ops -/

/-- The instruction words that reach a warning-only default branch: a
0-family word other than `00E0`/`00EE`, an 8-family word whose low nibble
is not in {0,…,7,E}, an E-family word whose low byte is not `9E`/`A1`,
and an F-family word whose low byte is not one of the nine handled
sub-opcodes.  (Every top nibble is dispatched, so these are the only
unmapped words.) -/
def unmappedOp (op : Nat) : Prop :=
  (op / 4096 = 0x0 ∧ op % 256 ≠ 0xE0 ∧ op % 256 ≠ 0xEE) ∨
  (op / 4096 = 0x8 ∧ op % 16 ≠ 0x0 ∧ op % 16 ≠ 0x1 ∧ op % 16 ≠ 0x2 ∧ op % 16 ≠ 0x3 ∧
    op % 16 ≠ 0x4 ∧ op % 16 ≠ 0x5 ∧ op % 16 ≠ 0x6 ∧ op % 16 ≠ 0x7 ∧ op % 16 ≠ 0xE) ∨
  (op / 4096 = 0xE ∧ op % 256 ≠ 0x9E ∧ op % 256 ≠ 0xA1) ∨
  (op / 4096 = 0xF ∧ op % 256 ≠ 0x07 ∧ op % 256 ≠ 0x0A ∧ op % 256 ≠ 0x15 ∧ op % 256 ≠ 0x18 ∧
    op % 256 ≠ 0x1E ∧ op % 256 ≠ 0x29 ∧ op % 256 ≠ 0x33 ∧ op % 256 ≠ 0x55 ∧ op % 256 ≠ 0x65)

instance (op : Nat) : Decidable (unmappedOp op) := by
  unfold unmappedOp
  infer_instance

/-- Fresh VM with the delay timer set to 1; the fetched word at `0x200`
is `0000`, an unmapped 0-family sub-opcode. -/
def c7state : Chip8 := { Chip8.new rng0 with delay_timer := 1 }

/-- C7 counterexample: the claim says a step executing an unmapped
sub-opcode leaves the timers (among everything else) unchanged.  But
`handle_op` decrements the timers *before* decoding, on every step: from
`delay_timer = 1`, the no-op step `0000` returns with `delay_timer = 0`,
not 1. -/
theorem C7_counterexample :
    c7state.delay_timer = 1 ∧
    c7state.memory.getD 0x200 0 * 256 + c7state.memory.getD 0x201 0 = 0 ∧
    unmappedOp 0 ∧
    (c7state.handle_op).map (fun t => t.delay_timer) = some 0 := by decide

/-- C7 (amended): a step whose fetched word is unmapped does not fail:
it returns successfully with registers, memory, stack, display, index
and key unchanged, the program counter advanced by exactly 2 — and the
two timers decremented by the step preamble exactly as on every other
step (they are *not* left unchanged).  The warning (`eprintln!`) is an
I/O effect outside the embedding. -/
theorem C7_amended_no_op (s : Chip8) (hpc : s.program_counter + 1 < 4096)
    (hun : unmappedOp (s.memory.getD s.program_counter 0 * 256 +
                       s.memory.getD (s.program_counter + 1) 0)) :
    s.handle_op = some
      { s with delay_timer := s.delay_timer - 1,
               sound_timer := s.sound_timer - 1,
               op := s.memory.getD s.program_counter 0 * 256 +
                     s.memory.getD (s.program_counter + 1) 0,
               program_counter := s.program_counter + 2 } := by
  unfold Chip8.handle_op
  rw [Chip8.decrement_timers_eq]
  dsimp only
  rw [if_pos (show s.program_counter + 1 < MEM_COUNT from hpc)]
  set opv := s.memory.getD s.program_counter 0 * 256 +
             s.memory.getD (s.program_counter + 1) 0 with hop
  have hfin : ∀ t : Chip8, t.program_counter = s.program_counter →
      Chip8.finish (some t, false) =
        some { t with program_counter := t.program_counter + 2 } := by
    intro t ht
    unfold Chip8.finish
    dsimp only
    norm_num
    intro hcon
    omega
  rcases hun with h | h | h | h
  · rw [h.1]
    norm_num
    unfold Chip8.clear_or_return
    dsimp only
    rw [if_neg h.2.1, if_neg h.2.2]
    rw [hfin]
    rfl
  · rw [h.1]
    norm_num
    unfold Chip8.logical_op
    dsimp only
    rw [if_neg h.2.1, if_neg h.2.2.1, if_neg h.2.2.2.1, if_neg h.2.2.2.2.1,
        if_neg h.2.2.2.2.2.1, if_neg h.2.2.2.2.2.2.1, if_neg h.2.2.2.2.2.2.2.1,
        if_neg h.2.2.2.2.2.2.2.2.1, if_neg h.2.2.2.2.2.2.2.2.2]
    rw [hfin]
    rfl
  · rw [h.1]
    norm_num
    unfold Chip8.keyboard_op
    dsimp only
    rw [if_neg h.2.1, if_neg h.2.2]
    rw [hfin]
    rfl
  · rw [h.1]
    norm_num
    unfold Chip8.misc_op
    dsimp only
    rw [if_neg h.2.1, if_neg h.2.2.1, if_neg h.2.2.2.1, if_neg h.2.2.2.2.1,
        if_neg h.2.2.2.2.2.1, if_neg h.2.2.2.2.2.2.1, if_neg h.2.2.2.2.2.2.2.1,
        if_neg h.2.2.2.2.2.2.2.2.1, if_neg h.2.2.2.2.2.2.2.2.2]
    rw [hfin]
    rfl

/-- Witness for `C7_amended_no_op`: a step of the fresh VM (fetched word
`0000`) succeeds, leaving everything but the timers, op latch and program
counter unchanged. -/
theorem C7_witness :
    (Chip8.new rng0).handle_op = some
      { Chip8.new rng0 with
        delay_timer := (Chip8.new rng0).delay_timer - 1,
        sound_timer := (Chip8.new rng0).sound_timer - 1,
        op := (Chip8.new rng0).memory.getD (Chip8.new rng0).program_counter 0 * 256 +
              (Chip8.new rng0).memory.getD ((Chip8.new rng0).program_counter + 1) 0,
        program_counter := (Chip8.new rng0).program_counter + 2 } :=
  C7_amended_no_op (Chip8.new rng0) (by decide) (by decide)

/-! ## Preservation lemmas for the step dispatcher -/

/-- `finish` succeeds only on a successful handler result, and changes at
most the program counter. -/
theorem finish_some {o : Option Chip8} {b : Bool} {s' : Chip8}
    (h : Chip8.finish (o, b) = some s') :
    ∃ t, o = some t ∧
      (s' = t ∨ s' = { t with program_counter := t.program_counter + 2 }) := by
  rcases o with _ | t
  · simp [Chip8.finish] at h
  · refine ⟨t, rfl, ?_⟩
    unfold Chip8.finish at h
    dsimp only at h
    split_ifs at h with h1 h2
    · cases h
      exact Or.inl rfl
    · cases h
      exact Or.inr rfl

theorem clear_or_return_memory {s t : Chip8} (h : s.clear_or_return = some t) :
    t.memory = s.memory := by
  unfold Chip8.clear_or_return at h
  split_ifs at h
  · cases h; rfl
  · rcases hs : s.stack with _ | ⟨p, rest⟩ <;> rw [hs] at h
    · cases h
    · cases h; rfl
  · cases h; rfl

theorem call_addr_memory {s t : Chip8} (h : s.call_addr = some t) :
    t.memory = s.memory := by
  unfold Chip8.call_addr at h
  split_ifs at h
  · cases h; rfl

theorem logical_op_memory {s t : Chip8} (h : s.logical_op = some t) :
    t.memory = s.memory := by
  unfold Chip8.logical_op at h
  dsimp only at h
  by_cases h0 : s.op % 16 = 0x0
  · rw [if_pos h0] at h; cases h; rfl
  rw [if_neg h0] at h
  by_cases h1 : s.op % 16 = 0x1
  · rw [if_pos h1] at h; cases h; rfl
  rw [if_neg h1] at h
  by_cases h2 : s.op % 16 = 0x2
  · rw [if_pos h2] at h; cases h; rfl
  rw [if_neg h2] at h
  by_cases h3 : s.op % 16 = 0x3
  · rw [if_pos h3] at h; cases h; rfl
  rw [if_neg h3] at h
  by_cases h4 : s.op % 16 = 0x4
  · rw [if_pos h4] at h; cases h; rfl
  rw [if_neg h4] at h
  by_cases h5 : s.op % 16 = 0x5
  · rw [if_pos h5] at h; cases h; rfl
  rw [if_neg h5] at h
  by_cases h6 : s.op % 16 = 0x6
  · rw [if_pos h6] at h; cases h; rfl
  rw [if_neg h6] at h
  by_cases h7 : s.op % 16 = 0x7
  · rw [if_pos h7] at h
    split_ifs at h <;> first | (cases h; rfl) | cases h
  rw [if_neg h7] at h
  by_cases hE : s.op % 16 = 0xE
  · rw [if_pos hE] at h; cases h; rfl
  rw [if_neg hE] at h
  cases h; rfl

theorem misc_op_memory {s t : Chip8}
    (h33 : s.op % 256 ≠ 0x33) (h55 : s.op % 256 ≠ 0x55)
    (h : s.misc_op = some t) : t.memory = s.memory := by
  unfold Chip8.misc_op at h
  dsimp only at h
  split_ifs at h <;> first
    | (exact absurd (by assumption) h33)
    | (exact absurd (by assumption) h55)
    | (cases h; rfl)
    | cases h

theorem drawBits_preserves (x0 y0 hrow line : Nat) (ws : List Nat) :
    ∀ t t' : Chip8, Chip8.drawBits x0 y0 hrow line t ws = some t' →
      t'.memory = t.memory ∧ t'.index = t.index ∧
      t'.program_counter = t.program_counter ∧ t'.stack = t.stack ∧
      t'.delay_timer = t.delay_timer ∧ t'.sound_timer = t.sound_timer ∧
      t'.op = t.op ∧ t'.key = t.key := by
  induction ws with
  | nil =>
    intro t t' h
    simp only [Chip8.drawBits, Option.some.injEq] at h
    subst h
    exact ⟨rfl, rfl, rfl, rfl, rfl, rfl, rfl, rfl⟩
  | cons w ws ih =>
    intro t t' h
    simp only [Chip8.drawBits] at h
    split_ifs at h
    all_goals first
      | cases h
      | (obtain ⟨h1, h2, h3, h4, h5, h6, h7, h8⟩ := ih _ _ h
         exact ⟨by rw [h1], by rw [h2], by rw [h3], by rw [h4],
                by rw [h5], by rw [h6], by rw [h7], by rw [h8]⟩)

theorem drawRows_preserves (x0 y0 : Nat) (hs : List Nat) :
    ∀ t t' : Chip8, Chip8.drawRows x0 y0 t hs = some t' →
      t'.memory = t.memory ∧ t'.index = t.index ∧
      t'.program_counter = t.program_counter ∧ t'.stack = t.stack ∧
      t'.delay_timer = t.delay_timer ∧ t'.sound_timer = t.sound_timer ∧
      t'.op = t.op ∧ t'.key = t.key := by
  induction hs with
  | nil =>
    intro t t' h
    simp only [Chip8.drawRows, Option.some.injEq] at h
    subst h
    exact ⟨rfl, rfl, rfl, rfl, rfl, rfl, rfl, rfl⟩
  | cons hrow hs ih =>
    intro t t' h
    simp only [Chip8.drawRows] at h
    split_ifs at h with hin
    rcases hb : Chip8.drawBits x0 y0 hrow (t.memory.getD (t.index + hrow) 0) t
        (List.range 8) with _ | t1
    · rw [hb] at h
      cases h
    · rw [hb] at h
      dsimp only at h
      obtain ⟨g1, g2, g3, g4, g5, g6, g7, g8⟩ := ih _ _ h
      obtain ⟨f1, f2, f3, f4, f5, f6, f7, f8⟩ := drawBits_preserves _ _ _ _ _ _ _ hb
      exact ⟨g1.trans f1, g2.trans f2, g3.trans f3, g4.trans f4,
             g5.trans f5, g6.trans f6, g7.trans f7, g8.trans f8⟩

theorem draw_preserves {s s' : Chip8} (h : s.draw = some s') :
    s'.memory = s.memory ∧ s'.index = s.index ∧
    s'.program_counter = s.program_counter ∧ s'.stack = s.stack ∧
    s'.delay_timer = s.delay_timer ∧ s'.sound_timer = s.sound_timer ∧
    s'.op = s.op ∧ s'.key = s.key := by
  unfold Chip8.draw at h
  dsimp only at h
  obtain ⟨h1, h2, h3, h4, h5, h6, h7, h8⟩ := drawRows_preserves _ _ _ _ _ h
  exact ⟨h1, h2, h3, h4, h5, h6, h7, h8⟩

/-! ## C9 — the font region after construction and under execution -/

/-- A three-instruction program that overwrites the font table:
`A050` (set index to 0x50), `6005` (set V0 to 5), `F055` (store V0..V0 at
memory[index]). -/
def c9rom : List Nat := [0xA0, 0x50, 0x60, 0x05, 0xF0, 0x55]

/-- Fresh VM with `c9rom` loaded at `0x200`. -/
def c9start : Chip8 := (Chip8.new rng0).load_rom c9rom

/-- C9 counterexample: the claim says the font region is never
overwritten by normal execution, for all instruction sequences.  But
`Fx55` (and `Fx33`) write through the index register with no
write-protection: the reachable three-step program `A050 6005 F055`
stores 5 over the first font byte at `0x50` (originally `0xF0`). -/
theorem C9_counterexample :
    c9start.memory.getD 0x50 0 = 0xF0 ∧
    ((c9start.handle_op.bind Chip8.handle_op).bind Chip8.handle_op).map
      (fun t => t.memory.getD 0x50 0) = some 5 ∧
    (5 : Nat) ≠ 0xF0 := by decide

/-- C9 (amended): after construction memory `0x50..0xA0` holds exactly
the 80-byte glyph table; and the font region is preserved by every step
whose fetched instruction is not a memory-writing `Fx33`/`Fx55` — such a
step leaves *all* of memory unchanged.  (An `Fx33`/`Fx55` whose index
register points into `0x050..0x0A0` can overwrite the font, as the
counterexample shows: the region is not write-protected.) -/
theorem C9_amended_font :
    (∀ (rng : Nat → Nat) (a : Nat), 0x50 ≤ a → a < 0xA0 →
      (Chip8.new rng).memory.getD a 0 = FONT_SET.getD (a - 0x50) 0) ∧
    (∀ (s s' : Chip8) (op : Nat),
      s.memory.getD s.program_counter 0 * 256 +
        s.memory.getD (s.program_counter + 1) 0 = op →
      ¬(op / 4096 = 0xF ∧ (op % 256 = 0x33 ∨ op % 256 = 0x55)) →
      s.handle_op = some s' → s'.memory = s.memory) := by
  constructor
  · intro rng a h1 h2
    rw [new_memory_getD]
    unfold FONT_OFFSET
    rw [if_pos ⟨h1, by omega⟩]
  · intro s s' op hfetch hnot h
    unfold Chip8.handle_op at h
    rw [Chip8.decrement_timers_eq] at h
    dsimp only at h
    by_cases hpc : s.program_counter + 1 < MEM_COUNT
    case neg =>
      rw [if_neg hpc] at h
      cases h
    rw [if_pos hpc, hfetch] at h
    by_cases h0 : op / 4096 = 0x0
    · rw [if_pos h0] at h
      obtain ⟨t, hco, hc⟩ := finish_some h
      have hm : s'.memory = t.memory := by rcases hc with rfl | rfl <;> rfl
      rw [hm, clear_or_return_memory hco]
    rw [if_neg h0] at h
    by_cases h1 : op / 4096 = 0x1
    · rw [if_pos h1] at h
      obtain ⟨t, hco, hc⟩ := finish_some h
      have hm : s'.memory = t.memory := by rcases hc with rfl | rfl <;> rfl
      rw [hm]
      cases hco
      rfl
    rw [if_neg h1] at h
    by_cases hB : op / 4096 = 0xB
    · rw [if_pos hB] at h
      obtain ⟨t, hco, hc⟩ := finish_some h
      have hm : s'.memory = t.memory := by rcases hc with rfl | rfl <;> rfl
      rw [hm]
      cases hco
      rfl
    rw [if_neg hB] at h
    by_cases h2 : op / 4096 = 0x2
    · rw [if_pos h2] at h
      obtain ⟨t, hco, hc⟩ := finish_some h
      have hm : s'.memory = t.memory := by rcases hc with rfl | rfl <;> rfl
      rw [hm, call_addr_memory hco]
    rw [if_neg h2] at h
    by_cases h3 : op / 4096 = 0x3
    · rw [if_pos h3] at h
      obtain ⟨t, hco, hc⟩ := finish_some h
      have hm : s'.memory = t.memory := by rcases hc with rfl | rfl <;> rfl
      rw [hm]
      cases hco
      unfold Chip8.skip_eq_byte
      dsimp only
      split_ifs <;> rfl
    rw [if_neg h3] at h
    by_cases h4 : op / 4096 = 0x4
    · rw [if_pos h4] at h
      obtain ⟨t, hco, hc⟩ := finish_some h
      have hm : s'.memory = t.memory := by rcases hc with rfl | rfl <;> rfl
      rw [hm]
      cases hco
      unfold Chip8.skip_ne_byte
      dsimp only
      split_ifs <;> rfl
    rw [if_neg h4] at h
    by_cases h5 : op / 4096 = 0x5
    · rw [if_pos h5] at h
      obtain ⟨t, hco, hc⟩ := finish_some h
      have hm : s'.memory = t.memory := by rcases hc with rfl | rfl <;> rfl
      rw [hm]
      cases hco
      unfold Chip8.skip_eq_reg
      dsimp only
      split_ifs <;> rfl
    rw [if_neg h5] at h
    by_cases h9 : op / 4096 = 0x9
    · rw [if_pos h9] at h
      obtain ⟨t, hco, hc⟩ := finish_some h
      have hm : s'.memory = t.memory := by rcases hc with rfl | rfl <;> rfl
      rw [hm]
      cases hco
      unfold Chip8.skip_ne_reg
      dsimp only
      split_ifs <;> rfl
    rw [if_neg h9] at h
    by_cases h6 : op / 4096 = 0x6
    · rw [if_pos h6] at h
      obtain ⟨t, hco, hc⟩ := finish_some h
      have hm : s'.memory = t.memory := by rcases hc with rfl | rfl <;> rfl
      rw [hm]
      cases hco
      rfl
    rw [if_neg h6] at h
    by_cases h7 : op / 4096 = 0x7
    · rw [if_pos h7] at h
      obtain ⟨t, hco, hc⟩ := finish_some h
      have hm : s'.memory = t.memory := by rcases hc with rfl | rfl <;> rfl
      rw [hm]
      cases hco
      rfl
    rw [if_neg h7] at h
    by_cases h8 : op / 4096 = 0x8
    · rw [if_pos h8] at h
      obtain ⟨t, hco, hc⟩ := finish_some h
      have hm : s'.memory = t.memory := by rcases hc with rfl | rfl <;> rfl
      rw [hm, logical_op_memory hco]
    rw [if_neg h8] at h
    by_cases hA : op / 4096 = 0xA
    · rw [if_pos hA] at h
      obtain ⟨t, hco, hc⟩ := finish_some h
      have hm : s'.memory = t.memory := by rcases hc with rfl | rfl <;> rfl
      rw [hm]
      cases hco
      rfl
    rw [if_neg hA] at h
    by_cases hC : op / 4096 = 0xC
    · rw [if_pos hC] at h
      obtain ⟨t, hco, hc⟩ := finish_some h
      have hm : s'.memory = t.memory := by rcases hc with rfl | rfl <;> rfl
      rw [hm]
      cases hco
      rfl
    rw [if_neg hC] at h
    by_cases hD : op / 4096 = 0xD
    · rw [if_pos hD] at h
      obtain ⟨t, hco, hc⟩ := finish_some h
      have hm : s'.memory = t.memory := by rcases hc with rfl | rfl <;> rfl
      rw [hm, (draw_preserves hco).1]
    rw [if_neg hD] at h
    by_cases hE : op / 4096 = 0xE
    · rw [if_pos hE] at h
      obtain ⟨t, hco, hc⟩ := finish_some h
      have hm : s'.memory = t.memory := by rcases hc with rfl | rfl <;> rfl
      rw [hm]
      cases hco
      unfold Chip8.keyboard_op
      dsimp only
      split_ifs <;> rfl
    rw [if_neg hE] at h
    by_cases hF : op / 4096 = 0xF
    · rw [if_pos hF] at h
      obtain ⟨t, hco, hc⟩ := finish_some h
      have hm : s'.memory = t.memory := by rcases hc with rfl | rfl <;> rfl
      have h33 : op % 256 ≠ 0x33 := fun hc33 => hnot ⟨hF, Or.inl hc33⟩
      have h55 : op % 256 ≠ 0x55 := fun hc55 => hnot ⟨hF, Or.inr hc55⟩
      rw [hm, misc_op_memory h33 h55 hco]
    rw [if_neg hF] at h
    obtain ⟨t, hco, hc⟩ := finish_some h
    have hm : s'.memory = t.memory := by rcases hc with rfl | rfl <;> rfl
    rw [hm]
    cases hco
    rfl

/-- Witness for `C9_amended_font`: the first font byte of a fresh VM is
`FONT_SET[0] = 0xF0`, and the no-op first step of the fresh VM (fetched
word `0000`, not an `Fx33`/`Fx55`) leaves all of memory unchanged. -/
theorem C9_witness :
    (Chip8.new rng0).memory.getD 0x50 0 = FONT_SET.getD (0x50 - 0x50) 0 ∧
    ((Chip8.new rng0).handle_op).map (fun t => t.memory) =
      some (Chip8.new rng0).memory := by
  refine ⟨C9_amended_font.1 rng0 0x50 (by decide) (by decide), ?_⟩
  rcases hh : (Chip8.new rng0).handle_op with _ | t
  · have hs : (Chip8.new rng0).handle_op.isSome = true := by decide
    rw [hh] at hs
    cases hs
  · dsimp only [Option.map]
    rw [C9_amended_font.2 (Chip8.new rng0) t 0 (by decide) (by decide) hh]

/-! ## C1 — display-grid lemmas -/

/-- Well-formed framebuffer: 32 rows of 64 pixels, the shape of the
source's `[[bool; 64]; 32]`. -/
def dispWf (d : List (List Bool)) : Prop :=
  d.length = 32 ∧ ∀ row ∈ d, row.length = 64

instance (d : List (List Bool)) : Decidable (dispWf d) := by
  unfold dispWf
  infer_instance

theorem dispWf_set {d : List (List Bool)} (hwf : dispWf d) {r : Nat} (hr : r < 32)
    (c : Nat) (b : Bool) : dispWf (dispSet d r c b) := by
  obtain ⟨hl, hrows⟩ := hwf
  constructor
  · rw [dispSet, List.length_set]
    exact hl
  · intro row hrow
    rcases List.mem_or_eq_of_mem_set hrow with h | h
    · exact hrows row h
    · subst h
      rw [List.length_set]
      have hrd : r < d.length := by omega
      have : d.getD r [] = d[r] := by
        rw [List.getD_eq_getElem?_getD, List.getElem?_eq_getElem hrd]
        rfl
      rw [this]
      exact hrows _ (List.getElem_mem hrd)

theorem dispGet_dispSet {d : List (List Bool)} (hwf : dispWf d) {r c : Nat}
    (hr : r < 32) (hc : c < 64) (b : Bool) (r' c' : Nat) :
    dispGet (dispSet d r c b) r' c' =
      if r = r' ∧ c = c' then b else dispGet d r' c' := by
  obtain ⟨hl, hrows⟩ := hwf
  have hrd : r < d.length := by omega
  have hrow : d.getD r [] = d[r] := by
    rw [List.getD_eq_getElem?_getD, List.getElem?_eq_getElem hrd]
    rfl
  have hrlen : (d.getD r []).length = 64 := by
    rw [hrow]
    exact hrows _ (List.getElem_mem hrd)
  unfold dispGet dispSet
  rw [getD_set]
  by_cases h1 : r = r'
  · subst h1
    rw [if_pos ⟨rfl, hrd⟩, getD_set]
    by_cases h2 : c = c'
    · subst h2
      rw [if_pos ⟨rfl, by rw [hrlen]; exact hc⟩, if_pos ⟨rfl, rfl⟩]
    · rw [if_neg (by tauto), if_neg (by tauto)]
  · rw [if_neg (by tauto), if_neg (by tauto)]

theorem dispGet_eq_getElem {d : List (List Bool)} {r c : Nat}
    (hr : r < d.length) (hc : c < d[r].length) : dispGet d r c = d[r][c] := by
  have houter : d.getD r [] = d[r] := by
    rw [List.getD_eq_getElem?_getD, List.getElem?_eq_getElem hr]
    rfl
  unfold dispGet
  rw [houter, List.getD_eq_getElem?_getD, List.getElem?_eq_getElem hc]
  rfl

theorem disp_ext {d1 d2 : List (List Bool)} (h1 : dispWf d1) (h2 : dispWf d2)
    (h : ∀ r c, dispGet d1 r c = dispGet d2 r c) : d1 = d2 := by
  apply List.ext_getElem (by rw [h1.1, h2.1])
  intro r hr1 hr2
  apply List.ext_getElem
  · rw [h1.2 _ (List.getElem_mem hr1), h2.2 _ (List.getElem_mem hr2)]
  intro c hc1 hc2
  rw [← dispGet_eq_getElem hr1 hc1, ← dispGet_eq_getElem hr2 hc2]
  exact h r c

theorem decide_add_mod_two (a b : Nat) :
    decide ((a + b) % 2 = 1) = xor (decide (a % 2 = 1)) (decide (b % 2 = 1)) := by
  rcases Nat.mod_two_eq_zero_or_one a with h | h <;>
    rcases Nat.mod_two_eq_zero_or_one b with h' | h' <;>
    simp [Nat.add_mod, h, h']

theorem xor_not_left (a b : Bool) : xor (!a) b = xor a (!b) := by
  cases a <;> cases b <;> rfl

/-- Number of 1-bits of the sprite row byte `line` among bit offsets `ws`
that target pixel `(r, c)` for a draw with origin `(x0, y0)` at sprite
row `hrow`. -/
def rowHits (x0 y0 hrow line : Nat) (ws : List Nat) (r c : Nat) : Nat :=
  (ws.filter (fun w => Chip8.bitOn line w && decide (r = (y0 + hrow) % SCREEN_HEIGHT)
      && decide (c = (x0 + w) % SCREEN_WIDTH))).length

/-- The inner draw loop toggles each pixel once per targeting 1-bit:
pointwise, the new display is the old display XOR the parity of the hit
count. -/
theorem drawBits_display (x0 y0 hrow line : Nat) (ws : List Nat) :
    ∀ t t' : Chip8, Chip8.drawBits x0 y0 hrow line t ws = some t' →
      dispWf t.display →
      dispWf t'.display ∧
      ∀ r c, dispGet t'.display r c =
        xor (dispGet t.display r c)
            (decide (rowHits x0 y0 hrow line ws r c % 2 = 1)) := by
  induction ws with
  | nil =>
    intro t t' h hwf
    simp only [Chip8.drawBits, Option.some.injEq] at h
    subst h
    refine ⟨hwf, fun r c => ?_⟩
    simp [rowHits]
  | cons w ws ih =>
    intro t t' h hwf
    have hpy : (y0 + hrow) % SCREEN_HEIGHT < 32 := Nat.mod_lt _ (by decide)
    have hpx : (x0 + w) % SCREEN_WIDTH < 64 := Nat.mod_lt _ (by decide)
    simp only [Chip8.drawBits] at h
    cases hb : Chip8.bitOn line w with
    | false =>
      rw [if_neg (by simp [hb])] at h
      obtain ⟨hwf2, hd⟩ := ih _ _ h hwf
      refine ⟨hwf2, fun r c => ?_⟩
      rw [hd r c]
      have hsame : rowHits x0 y0 hrow line (w :: ws) r c =
          rowHits x0 y0 hrow line ws r c := by
        simp [rowHits, List.filter_cons, hb]
      rw [hsame]
    | true =>
      rw [if_pos hb] at h
      by_cases hbd : x0 + w ≤ 255 ∧ y0 + hrow ≤ 255
      case neg =>
        rw [if_neg hbd] at h
        cases h
      rw [if_pos hbd] at h
      set t1 : Chip8 :=
        if dispGet t.display ((y0 + hrow) % SCREEN_HEIGHT) ((x0 + w) % SCREEN_WIDTH) = true
        then { t with registers := t.registers.set CARRY_REG 1 }
        else t with hdef
      have ht1d : t1.display = t.display := by
        rw [hdef]
        split <;> rfl
      rw [ht1d] at h
      have hwfS : dispWf (dispSet t.display ((y0 + hrow) % SCREEN_HEIGHT)
          ((x0 + w) % SCREEN_WIDTH)
          (!(dispGet t.display ((y0 + hrow) % SCREEN_HEIGHT) ((x0 + w) % SCREEN_WIDTH)))) :=
        dispWf_set hwf hpy _ _
      obtain ⟨hwf2, hd⟩ := ih _ _ h hwfS
      refine ⟨hwf2, fun r c => ?_⟩
      rw [hd r c]
      rw [dispGet_dispSet hwf hpy hpx]
      by_cases hr2 : r = (y0 + hrow) % SCREEN_HEIGHT
      · by_cases hc2 : c = (x0 + w) % SCREEN_WIDTH
        · rw [if_pos ⟨hr2.symm, hc2.symm⟩]
          have hcnt : rowHits x0 y0 hrow line (w :: ws) r c =
              1 + rowHits x0 y0 hrow line ws r c := by
            simp [rowHits, List.filter_cons, hb, hr2, hc2, Nat.add_comm]
          rw [hcnt, decide_add_mod_two, hr2, hc2]
          norm_num
        · rw [if_neg (by tauto)]
          have hsame : rowHits x0 y0 hrow line (w :: ws) r c =
              rowHits x0 y0 hrow line ws r c := by
            simp [rowHits, List.filter_cons, hb, hc2]
          rw [hsame]
      · rw [if_neg (by tauto)]
        have hsame : rowHits x0 y0 hrow line (w :: ws) r c =
            rowHits x0 y0 hrow line ws r c := by
          simp [rowHits, List.filter_cons, hb, hr2]
        rw [hsame]

/-- Total number of draw toggles targeting pixel `(r, c)` over the sprite
rows `hs`, for a draw with origin `(x0, y0)` reading rows at
`mem[idx + hrow]`. -/
def rowsHits (x0 y0 : Nat) (mem : List Nat) (idx : Nat) (hs : List Nat) (r c : Nat) : Nat :=
  (hs.map (fun hrow =>
    rowHits x0 y0 hrow (mem.getD (idx + hrow) 0) (List.range 8) r c)).sum

/-- The outer draw loop, pointwise: the new display is the old display
XOR the parity of the total hit count. -/
theorem drawRows_display (x0 y0 : Nat) (hs : List Nat) :
    ∀ t t' : Chip8, Chip8.drawRows x0 y0 t hs = some t' → dispWf t.display →
      dispWf t'.display ∧
      ∀ r c, dispGet t'.display r c =
        xor (dispGet t.display r c)
            (decide (rowsHits x0 y0 t.memory t.index hs r c % 2 = 1)) := by
  induction hs with
  | nil =>
    intro t t' h hwf
    simp only [Chip8.drawRows, Option.some.injEq] at h
    subst h
    exact ⟨hwf, fun r c => by simp [rowsHits]⟩
  | cons hrow hs ih =>
    intro t t' h hwf
    simp only [Chip8.drawRows] at h
    split_ifs at h with hin
    rcases hb : Chip8.drawBits x0 y0 hrow (t.memory.getD (t.index + hrow) 0) t
        (List.range 8) with _ | t1
    · rw [hb] at h
      cases h
    · rw [hb] at h
      dsimp only at h
      obtain ⟨hwfB, hdB⟩ := drawBits_display _ _ _ _ _ _ _ hb hwf
      obtain ⟨hwf2, hd2⟩ := ih _ _ h hwfB
      obtain ⟨pm, pi, _, _, _, _, _, _⟩ := drawBits_preserves _ _ _ _ _ _ _ hb
      refine ⟨hwf2, fun r c => ?_⟩
      rw [hd2 r c, hdB r c, pm, pi, Bool.xor_assoc]
      congr 1
      have hsum : rowsHits x0 y0 t.memory t.index (hrow :: hs) r c =
          rowHits x0 y0 hrow (t.memory.getD (t.index + hrow) 0) (List.range 8) r c +
            rowsHits x0 y0 t.memory t.index hs r c := by
        simp [rowsHits]
      rw [hsum, decide_add_mod_two]

theorem anyCongr {α : Type _} {l : List α} {f g : α → Bool}
    (h : ∀ a ∈ l, f a = g a) : l.any f = l.any g := by
  induction l with
  | nil => rfl
  | cons a l ih =>
    simp only [List.any_cons]
    rw [h a (List.mem_cons_self a l), ih (fun b hb => h b (List.mem_cons_of_mem a hb))]

/-- Two bit offsets below 8 with the same origin target distinct columns. -/
theorem col_ne {x0 w w' : Nat} (hw : w < 8) (hw' : w' < 8) (hne : w ≠ w') :
    (x0 + w) % SCREEN_WIDTH ≠ (x0 + w') % SCREEN_WIDTH := by
  unfold SCREEN_WIDTH
  omega

/-- Two row offsets below 32 with the same origin target distinct rows. -/
theorem row_ne {y0 a a' : Nat} (ha : a < 32) (ha' : a' < 32) (hne : a ≠ a') :
    (y0 + a) % SCREEN_HEIGHT ≠ (y0 + a') % SCREEN_HEIGHT := by
  unfold SCREEN_HEIGHT
  omega

/-- The inner draw loop writes only the carry register: it sets it to 1
exactly when some targeted pixel is set in the display the loop entered
with (the bit offsets are pairwise distinct and below 8, so the loop's
own toggles never influence a later collision test of the same row). -/
theorem drawBits_registers (x0 y0 hrow line : Nat) (ws : List Nat) :
    ∀ t t' : Chip8, Chip8.drawBits x0 y0 hrow line t ws = some t' →
      dispWf t.display → (∀ w ∈ ws, w < 8) → ws.Nodup →
      t'.registers =
        (if ws.any (fun w => Chip8.bitOn line w &&
            dispGet t.display ((y0 + hrow) % SCREEN_HEIGHT) ((x0 + w) % SCREEN_WIDTH))
         then t.registers.set CARRY_REG 1 else t.registers) := by
  induction ws with
  | nil =>
    intro t t' h hwf h8 hnd
    simp only [Chip8.drawBits, Option.some.injEq] at h
    subst h
    simp
  | cons w ws ih =>
    intro t t' h hwf h8 hnd
    have hpy : (y0 + hrow) % SCREEN_HEIGHT < 32 := Nat.mod_lt _ (by decide)
    have hpx : (x0 + w) % SCREEN_WIDTH < 64 := Nat.mod_lt _ (by decide)
    have hw8 : w < 8 := h8 w (List.mem_cons_self w ws)
    simp only [Chip8.drawBits] at h
    cases hb : Chip8.bitOn line w with
    | false =>
      rw [if_neg (by simp [hb])] at h
      rw [ih _ _ h hwf (fun a ha => h8 a (List.mem_cons_of_mem w ha)) hnd.of_cons]
      simp [List.any_cons, hb]
    | true =>
      rw [if_pos hb] at h
      by_cases hbd : x0 + w ≤ 255 ∧ y0 + hrow ≤ 255
      case neg =>
        rw [if_neg hbd] at h
        cases h
      rw [if_pos hbd] at h
      set t1 : Chip8 :=
        if dispGet t.display ((y0 + hrow) % SCREEN_HEIGHT) ((x0 + w) % SCREEN_WIDTH) = true
        then { t with registers := t.registers.set CARRY_REG 1 }
        else t with hdef
      have ht1d : t1.display = t.display := by
        rw [hdef]
        split <;> rfl
      rw [ht1d] at h
      have hwfS : dispWf (dispSet t.display ((y0 + hrow) % SCREEN_HEIGHT)
          ((x0 + w) % SCREEN_WIDTH)
          (!(dispGet t.display ((y0 + hrow) % SCREEN_HEIGHT) ((x0 + w) % SCREEN_WIDTH)))) :=
        dispWf_set hwf hpy _ _
      rw [ih _ _ h hwfS (fun a ha => h8 a (List.mem_cons_of_mem w ha)) hnd.of_cons]
      have hanys : (ws.any (fun w' => Chip8.bitOn line w' &&
          dispGet (dispSet t.display ((y0 + hrow) % SCREEN_HEIGHT) ((x0 + w) % SCREEN_WIDTH)
            (!(dispGet t.display ((y0 + hrow) % SCREEN_HEIGHT) ((x0 + w) % SCREEN_WIDTH))))
          ((y0 + hrow) % SCREEN_HEIGHT) ((x0 + w') % SCREEN_WIDTH))) =
          (ws.any (fun w' => Chip8.bitOn line w' &&
            dispGet t.display ((y0 + hrow) % SCREEN_HEIGHT) ((x0 + w') % SCREEN_WIDTH))) := by
        apply anyCongr
        intro a ha
        have hane : w ≠ a := fun hcontra => (List.nodup_cons.mp hnd).1 (hcontra ▸ ha)
        rw [dispGet_dispSet hwf hpy hpx]
        rw [if_neg (fun hcontra =>
          col_ne hw8 (h8 a (List.mem_cons_of_mem w ha)) hane hcontra.2)]
      rw [hanys]
      cases hcol : dispGet t.display ((y0 + hrow) % SCREEN_HEIGHT)
          ((x0 + w) % SCREEN_WIDTH) with
      | true =>
        have ht1r : t1.registers = t.registers.set CARRY_REG 1 := by
          rw [hdef, if_pos hcol]
        rw [ht1r]
        have hhead : (Chip8.bitOn line w &&
            dispGet t.display ((y0 + hrow) % SCREEN_HEIGHT) ((x0 + w) % SCREEN_WIDTH)) =
            true := by rw [hb, hcol]; rfl
        rw [List.any_cons, hhead]
        simp only [Bool.true_or, if_pos]
        split <;> simp [List.set_set]
      | false =>
        have ht1r : t1.registers = t.registers := by
          rw [hdef, if_neg (by simp [hcol])]
        rw [ht1r]
        have hhead : (Chip8.bitOn line w &&
            dispGet t.display ((y0 + hrow) % SCREEN_HEIGHT) ((x0 + w) % SCREEN_WIDTH)) =
            false := by rw [hcol]; simp
        rw [List.any_cons, hhead]
        simp only [Bool.false_or]

/-- Whether some 1-bit of the sprite rows `hs` targets a set pixel of
display `d` — the collision condition of a draw. -/
def rowsCollision (x0 y0 : Nat) (mem : List Nat) (idx : Nat)
    (d : List (List Bool)) (hs : List Nat) : Bool :=
  hs.any (fun hrow => (List.range 8).any (fun w =>
    Chip8.bitOn (mem.getD (idx + hrow) 0) w &&
    dispGet d ((y0 + hrow) % SCREEN_HEIGHT) ((x0 + w) % SCREEN_WIDTH)))

/-- The outer draw loop writes only the carry register: it sets it to 1
exactly when some sprite 1-bit targets a pixel set in the entry display
(rows are pairwise distinct and below 32, so one row's toggles never
influence another row's collision tests). -/
theorem drawRows_registers (x0 y0 : Nat) (hs : List Nat) :
    ∀ t t' : Chip8, Chip8.drawRows x0 y0 t hs = some t' →
      dispWf t.display → (∀ a ∈ hs, a < 32) → hs.Nodup →
      t'.registers =
        (if rowsCollision x0 y0 t.memory t.index t.display hs
         then t.registers.set CARRY_REG 1 else t.registers) := by
  induction hs with
  | nil =>
    intro t t' h hwf h32 hnd
    simp only [Chip8.drawRows, Option.some.injEq] at h
    subst h
    simp [rowsCollision]
  | cons hrow hs ih =>
    intro t t' h hwf h32 hnd
    have hrow32 : hrow < 32 := h32 hrow (List.mem_cons_self hrow hs)
    simp only [Chip8.drawRows] at h
    split_ifs at h with hin
    rcases hb : Chip8.drawBits x0 y0 hrow (t.memory.getD (t.index + hrow) 0) t
        (List.range 8) with _ | t1
    · rw [hb] at h
      cases h
    · rw [hb] at h
      dsimp only at h
      obtain ⟨hwfB, hdB⟩ := drawBits_display _ _ _ _ _ _ _ hb hwf
      obtain ⟨pm, pi, _, _, _, _, _, _⟩ := drawBits_preserves _ _ _ _ _ _ _ hb
      have hregB := drawBits_registers _ _ _ _ _ _ _ hb hwf
        (fun a ha => List.mem_range.mp ha) (List.nodup_range 8)
      rw [ih _ _ h hwfB (fun a ha => h32 a (List.mem_cons_of_mem hrow ha)) hnd.of_cons]
      have hanys : rowsCollision x0 y0 t1.memory t1.index t1.display hs =
          rowsCollision x0 y0 t.memory t.index t.display hs := by
        unfold rowsCollision
        rw [pm, pi]
        apply anyCongr
        intro a ha
        apply anyCongr
        intro w hw
        have hane : a ≠ hrow := fun hcontra => (List.nodup_cons.mp hnd).1 (hcontra ▸ ha)
        congr 1
        rw [hdB]
        have hrne : (y0 + a) % SCREEN_HEIGHT ≠ (y0 + hrow) % SCREEN_HEIGHT :=
          row_ne (h32 a (List.mem_cons_of_mem hrow ha)) hrow32 hane
        have hz : rowHits x0 y0 hrow (t.memory.getD (t.index + hrow) 0) (List.range 8)
            ((y0 + a) % SCREEN_HEIGHT) ((x0 + w) % SCREEN_WIDTH) = 0 := by
          unfold rowHits
          rw [List.length_eq_zero]
          rw [List.filter_eq_nil_iff]
          intro b hbmem
          simp [hrne]
        rw [hz]
        simp
      rw [hanys, hregB]
      unfold rowsCollision
      rw [List.any_cons]
      cases hhead : (List.range 8).any (fun w =>
          Chip8.bitOn (t.memory.getD (t.index + hrow) 0) w &&
          dispGet t.display ((y0 + hrow) % SCREEN_HEIGHT) ((x0 + w) % SCREEN_WIDTH)) with
      | true =>
        simp only [Bool.true_or]
        split <;> simp [List.set_set]
      | false =>
        simp only [Bool.false_or]
        simp

/-- A sprite 1-bit hits its own target pixel exactly once in its row. -/
theorem rowHits_self (x0 y0 hrow line : Nat) {w0 : Nat} (hw0 : w0 < 8)
    (hbit : Chip8.bitOn line w0 = true) :
    rowHits x0 y0 hrow line (List.range 8)
      ((y0 + hrow) % SCREEN_HEIGHT) ((x0 + w0) % SCREEN_WIDTH) = 1 := by
  unfold rowHits
  have hcong : ∀ w ∈ List.range 8,
      (Chip8.bitOn line w &&
        decide ((y0 + hrow) % SCREEN_HEIGHT = (y0 + hrow) % SCREEN_HEIGHT) &&
        decide ((x0 + w0) % SCREEN_WIDTH = (x0 + w) % SCREEN_WIDTH)) =
      decide (w = w0) := by
    intro w hw
    by_cases hww : w = w0
    · subst hww
      simp [hbit]
    · have hcol := @col_ne x0 _ _ hw0 (List.mem_range.mp hw) (Ne.symm hww)
      simp [hcol, hww]
  rw [List.filter_congr hcong]
  interval_cases w0 <;> decide

/-- A sprite row contributes no hits to pixels outside its own row. -/
theorem rowHits_row_ne {y0 hrow r : Nat} (x0 line c : Nat)
    (hne : r ≠ (y0 + hrow) % SCREEN_HEIGHT) (ws : List Nat) :
    rowHits x0 y0 hrow line ws r c = 0 := by
  unfold rowHits
  rw [List.length_eq_zero, List.filter_eq_nil_iff]
  intro b hb
  simp [hne]

theorem sum_map_single {l : List Nat} {f : Nat → Nat} {a : Nat}
    (ha : a ∈ l) (hnd : l.Nodup) (hz : ∀ b ∈ l, b ≠ a → f b = 0) :
    (l.map f).sum = f a := by
  induction l with
  | nil => cases ha
  | cons x l ih =>
    simp only [List.map_cons, List.sum_cons]
    rcases List.mem_cons.mp ha with rfl | ha2
    · have hrest : (l.map f).sum = 0 := by
        apply List.sum_eq_zero
        intro v hv
        obtain ⟨b, hb, rfl⟩ := List.mem_map.mp hv
        exact hz b (List.mem_cons_of_mem _ hb)
          (fun hcontra => (List.nodup_cons.mp hnd).1 (hcontra ▸ hb))
      rw [hrest]
      omega
    · have hxa : x ≠ a := fun hxa => (List.nodup_cons.mp hnd).1 (hxa ▸ ha2)
      rw [hz x (List.mem_cons_self x l) hxa,
          ih ha2 (List.nodup_cons.mp hnd).2
            (fun b hb hne => hz b (List.mem_cons_of_mem _ hb) hne)]
      omega

/-- Each sprite 1-bit hits its target pixel exactly once over the whole
draw (rows below 32 are pairwise distinct). -/
theorem rowsHits_self (x0 y0 : Nat) (mem : List Nat) (idx : Nat)
    {n hrow0 w0 : Nat} (hr0 : hrow0 < n) (hn32 : n ≤ 32) (hw0 : w0 < 8)
    (hbit : Chip8.bitOn (mem.getD (idx + hrow0) 0) w0 = true) :
    rowsHits x0 y0 mem idx (List.range n)
      ((y0 + hrow0) % SCREEN_HEIGHT) ((x0 + w0) % SCREEN_WIDTH) = 1 := by
  unfold rowsHits
  rw [sum_map_single (List.mem_range.mpr hr0) (List.nodup_range n)
      (fun b hb hne => rowHits_row_ne _ _ _
        (row_ne (by omega) (by have := List.mem_range.mp hb; omega) (Ne.symm hne)) _)]
  exact rowHits_self x0 y0 hrow0 _ hw0 hbit

/-- One `draw`: the display is XOR-toggled at the hit parities, and the
carry register is rewritten to the collision indicator (reset to 0 first,
set to 1 exactly when some sprite 1-bit targets an already-set pixel). -/
theorem draw_characterization (s s1 : Chip8) (hwf : dispWf s.display)
    (h : s.draw = some s1) :
    dispWf s1.display ∧
    (∀ r c, dispGet s1.display r c =
      xor (dispGet s.display r c)
        (decide (rowsHits (s.registers.getD (s.op / 256 % 16) 0)
          (s.registers.getD (s.op / 16 % 16) 0) s.memory s.index
          (List.range (s.op % 16)) r c % 2 = 1))) ∧
    s1.registers = s.registers.set CARRY_REG
      (if rowsCollision (s.registers.getD (s.op / 256 % 16) 0)
          (s.registers.getD (s.op / 16 % 16) 0) s.memory s.index s.display
          (List.range (s.op % 16)) = true then 1 else 0) := by
  unfold Chip8.draw at h
  dsimp only at h
  have hwfR : dispWf (Chip8.display { s with registers := s.registers.set CARRY_REG 0 }) :=
    hwf
  obtain ⟨hwf1, hd1⟩ := drawRows_display _ _ _ _ _ h hwfR
  have hreg1 := drawRows_registers _ _ _ _ _ h hwfR
    (fun a ha => by have := List.mem_range.mp ha; omega) (List.nodup_range _)
  refine ⟨hwf1, hd1, ?_⟩
  have hreg2 : s1.registers =
      if rowsCollision (s.registers.getD (s.op / 256 % 16) 0)
          (s.registers.getD (s.op / 16 % 16) 0) s.memory s.index s.display
          (List.range (s.op % 16)) = true
      then (s.registers.set CARRY_REG 0).set CARRY_REG 1
      else s.registers.set CARRY_REG 0 := hreg1
  rw [hreg2]
  cases hcol : rowsCollision (s.registers.getD (s.op / 256 % 16) 0)
      (s.registers.getD (s.op / 16 % 16) 0) s.memory s.index s.display
      (List.range (s.op % 16)) with
  | true => simp [List.set_set]
  | false => simp

/-- Concrete state for the C1 counterexample: a fully lit framebuffer,
sprite byte `F0` at address 0, op `D001` (draw 1 row at origin (0,0)). -/
def c1state : Chip8 :=
  { display := List.replicate 32 (List.replicate 64 true),
    memory := (List.replicate 4096 0).set 0 0xF0,
    registers := List.replicate 16 0,
    index := 0,
    program_counter := 0x200,
    stack := [],
    delay_timer := 0,
    sound_timer := 0,
    op := 0xD001,
    key := 0,
    rng := rng0,
    rngIdx := 0 }

/-- C1 counterexample: the claim says that after drawing the same sprite
twice at the same origin the flag register is 1 whenever the sprite has
at least one 1-bit.  On a fully lit framebuffer the first draw clears
every target pixel (collision, flag 1), so the second draw finds them all
clear and leaves the flag at 0 — even though the sprite byte `F0` has
four 1-bits.  (The display-restoration half of the claim does hold.) -/
theorem C1_counterexample :
    Chip8.bitOn (c1state.memory.getD (c1state.index + 0) 0) 0 = true ∧
    (c1state.draw.bind Chip8.draw).map (fun t => t.registers.getD 15 0) = some 0 := by
  decide

/-- C1 (amended): for a Dxyn whose origin registers are not the flag
register itself, if both draws succeed then drawing the same sprite twice
at the same origin restores the original framebuffer exactly and leaves
memory unchanged; the flag register is 1 after the *first* draw iff some
sprite 1-bit targets a pixel *set* in the original framebuffer, and 1
after the *second* draw iff some sprite 1-bit targets a pixel *clear* in
the original framebuffer (not merely when the sprite has a 1-bit). -/
theorem C1_amended_double_draw (s s1 s2 : Chip8)
    (hreg : s.registers.length = 16) (hwf : dispWf s.display)
    (hx : s.op / 256 % 16 ≠ 15) (hy : s.op / 16 % 16 ≠ 15)
    (h1 : s.draw = some s1) (h2 : s1.draw = some s2) :
    s2.display = s.display ∧
    s2.memory = s.memory ∧
    (s1.registers.getD 15 0 = 1 ↔ ∃ hrow w, hrow < s.op % 16 ∧ w < 8 ∧
      Chip8.bitOn (s.memory.getD (s.index + hrow) 0) w = true ∧
      dispGet s.display
        ((s.registers.getD (s.op / 16 % 16) 0 + hrow) % SCREEN_HEIGHT)
        ((s.registers.getD (s.op / 256 % 16) 0 + w) % SCREEN_WIDTH) = true) ∧
    (s2.registers.getD 15 0 = 1 ↔ ∃ hrow w, hrow < s.op % 16 ∧ w < 8 ∧
      Chip8.bitOn (s.memory.getD (s.index + hrow) 0) w = true ∧
      dispGet s.display
        ((s.registers.getD (s.op / 16 % 16) 0 + hrow) % SCREEN_HEIGHT)
        ((s.registers.getD (s.op / 256 % 16) 0 + w) % SCREEN_WIDTH) = false) := by
  have hCR : CARRY_REG = 15 := rfl
  obtain ⟨hwf1, hd1, hr1⟩ := draw_characterization s s1 hwf h1
  obtain ⟨pm1, pi1, _, _, _, _, po1, _⟩ := draw_preserves h1
  rw [hCR] at hr1
  have h15x : (15 : Nat) ≠ s.op / 256 % 16 := fun hc => hx hc.symm
  have h15y : (15 : Nat) ≠ s.op / 16 % 16 := fun hc => hy hc.symm
  have hx0 : s1.registers.getD (s.op / 256 % 16) 0 =
      s.registers.getD (s.op / 256 % 16) 0 := by
    rw [hr1, getD_set_ne _ _ _ _ _ h15x]
  have hy0 : s1.registers.getD (s.op / 16 % 16) 0 =
      s.registers.getD (s.op / 16 % 16) 0 := by
    rw [hr1, getD_set_ne _ _ _ _ _ h15y]
  obtain ⟨hwf2, hd2, hr2⟩ := draw_characterization s1 s2 hwf1 h2
  rw [hCR] at hr2
  rw [po1, pm1, pi1, hx0, hy0] at hd2 hr2
  have hset15 : (15 : Nat) < s.registers.length := by omega
  have hlen1 : s1.registers.length = 16 := by
    rw [hr1, List.length_set]
    exact hreg
  have hset15' : (15 : Nat) < s1.registers.length := by omega
  have hn32 : s.op % 16 ≤ 32 := by omega
  -- the collision condition, as an existential over sprite bits
  have hcoll_iff : ∀ d : List (List Bool),
      (rowsCollision (s.registers.getD (s.op / 256 % 16) 0)
        (s.registers.getD (s.op / 16 % 16) 0) s.memory s.index d
        (List.range (s.op % 16)) = true) ↔
      ∃ hrow w, hrow < s.op % 16 ∧ w < 8 ∧
        Chip8.bitOn (s.memory.getD (s.index + hrow) 0) w = true ∧
        dispGet d ((s.registers.getD (s.op / 16 % 16) 0 + hrow) % SCREEN_HEIGHT)
          ((s.registers.getD (s.op / 256 % 16) 0 + w) % SCREEN_WIDTH) = true := by
    intro d
    unfold rowsCollision
    rw [List.any_eq_true]
    constructor
    · rintro ⟨hrow, hmem, hinner⟩
      rw [List.any_eq_true] at hinner
      obtain ⟨w, hwmem, hband⟩ := hinner
      rw [Bool.and_eq_true] at hband
      exact ⟨hrow, w, List.mem_range.mp hmem, List.mem_range.mp hwmem,
             hband.1, hband.2⟩
    · rintro ⟨hrow, w, hlt, hwlt, hbit, hdisp⟩
      exact ⟨hrow, List.mem_range.mpr hlt, List.any_eq_true.mpr
        ⟨w, List.mem_range.mpr hwlt, by rw [Bool.and_eq_true]; exact ⟨hbit, hdisp⟩⟩⟩
  refine ⟨?_, ?_, ?_, ?_⟩
  · -- the double draw restores the framebuffer
    apply disp_ext hwf2 hwf
    intro r c
    rw [hd2 r c, hd1 r c, Bool.xor_assoc, Bool.xor_self, Bool.xor_false]
  · exact (draw_preserves h2).1.trans pm1
  · -- flag after the first draw
    have hflag1 : s1.registers.getD 15 0 =
        (if rowsCollision (s.registers.getD (s.op / 256 % 16) 0)
            (s.registers.getD (s.op / 16 % 16) 0) s.memory s.index s.display
            (List.range (s.op % 16)) = true then 1 else 0) := by
      rw [hr1, getD_set_eq _ _ _ _ hset15]
    rw [hflag1]
    rw [show ∀ b : Bool, ((if b = true then (1 : Nat) else 0) = 1 ↔ b = true) from
      fun b => by cases b <;> simp]
    exact hcoll_iff s.display
  · -- flag after the second draw
    have hflag2 : s2.registers.getD 15 0 =
        (if rowsCollision (s.registers.getD (s.op / 256 % 16) 0)
            (s.registers.getD (s.op / 16 % 16) 0) s.memory s.index s1.display
            (List.range (s.op % 16)) = true then 1 else 0) := by
      rw [hr2, getD_set_eq _ _ _ _ hset15']
    rw [hflag2]
    rw [show ∀ b : Bool, ((if b = true then (1 : Nat) else 0) = 1 ↔ b = true) from
      fun b => by cases b <;> simp]
    rw [hcoll_iff s1.display]
    constructor
    · rintro ⟨hrow, w, hlt, hwlt, hbit, hdisp⟩
      refine ⟨hrow, w, hlt, hwlt, hbit, ?_⟩
      rw [hd1, rowsHits_self _ _ _ _ hlt hn32 hwlt hbit] at hdisp
      norm_num at hdisp
      simpa using hdisp
    · rintro ⟨hrow, w, hlt, hwlt, hbit, hdisp⟩
      refine ⟨hrow, w, hlt, hwlt, hbit, ?_⟩
      rw [hd1, rowsHits_self _ _ _ _ hlt hn32 hwlt hbit]
      norm_num
      simpa using hdisp

/-- Fresh VM about to draw the digit-0 font glyph (5 rows at `0x50`) at
origin (0, 0): op `D005`, index `0x50`. -/
def c1w : Chip8 := { Chip8.new rng0 with index := 0x50, op := 0xD005 }

/-- Witness for `C1_amended_double_draw`: drawing the digit-0 glyph twice
at (0,0) on a fresh (all-clear) framebuffer restores the framebuffer and
leaves the flag register at 1 after the second draw. -/
theorem C1_witness :
    ((c1w.draw.bind Chip8.draw).map Chip8.display = some c1w.display) ∧
    ((c1w.draw.bind Chip8.draw).map (fun t => t.registers.getD 15 0) = some 1) := by
  have hboth : (c1w.draw.bind Chip8.draw).isSome = true := by decide
  rcases hh1 : c1w.draw with _ | s1
  · rw [hh1] at hboth
    cases hboth
  rw [hh1] at hboth
  simp only [Option.some_bind] at hboth
  rcases hh2 : s1.draw with _ | s2
  · rw [hh2] at hboth
    cases hboth
  obtain ⟨hdisp, hmem, hflag1, hflag2⟩ :=
    C1_amended_double_draw c1w s1 s2 (by decide) (by decide) (by decide) (by decide)
      hh1 hh2
  simp only [Option.some_bind, hh2, Option.map_some']
  refine ⟨by rw [hdisp], ?_⟩
  rw [hflag2.mpr ⟨0, 0, by decide, by decide, by decide, by decide⟩]

end Chip8Emu
